import Mathlib

/-!
# btstack_crypto: asynchronous crypto request engine

Part 1 embeds the declarations of `src/btstack_crypto.h` (operation tag, request
records, the submit interface).  Part 2 models the engine behind that interface
(scheduler, per-operation state machines, backends), whose translation unit is not
part of the sources, from the specification.  Part 3 states and proves the
properties.
-/

namespace BtstackCrypto

/-! ## Part 1: declarations of `btstack_crypto.h` -/

/-- An unsigned 8-bit machine integer (`uint8_t`). -/
abbrev uint8_t := Fin 256

/-- An unsigned 16-bit machine integer (`uint16_t`). -/
abbrev uint16_t := Fin 65536

/-- An address in caller memory (`uint8_t *`, `void *`, a function address). -/
abbrev pointer := Nat

/-- The enum `btstack_crypto_operation_t` (btstack_crypto.h, lines 56-63).  A C enum
is an integer type: an object of it holds any value of the underlying integer type
(unsigned 32-bit for this enum under gcc, all enumerators being non-negative), not
only the six enumerators. -/
abbrev btstack_crypto_operation_t := Fin 4294967296

/-- The enumerator `BTSTACK_CRYPTO_RANDOM`, the first of the enum: no enumerator has an
initialiser, so they count up from 0 in declaration order. -/
def BTSTACK_CRYPTO_RANDOM : btstack_crypto_operation_t := 0

/-- The enumerator `BTSTACK_CRYPTO_AES128`. -/
def BTSTACK_CRYPTO_AES128 : btstack_crypto_operation_t := 1

/-- The enumerator `BTSTACK_CRYPTO_CMAC_GENERATOR`. -/
def BTSTACK_CRYPTO_CMAC_GENERATOR : btstack_crypto_operation_t := 2

/-- The enumerator `BTSTACK_CRYPTO_CMAC_MESSAGE`. -/
def BTSTACK_CRYPTO_CMAC_MESSAGE : btstack_crypto_operation_t := 3

/-- The enumerator `BTSTACK_CRYPTO_EC_P192_GENERATE_KEY`. -/
def BTSTACK_CRYPTO_EC_P192_GENERATE_KEY : btstack_crypto_operation_t := 4

/-- The enumerator `BTSTACK_CRYPTO_EC_P192_CALCULATE_DHKEY`. -/
def BTSTACK_CRYPTO_EC_P192_CALCULATE_DHKEY : btstack_crypto_operation_t := 5

/-- The six enumerators of `btstack_crypto_operation_t`, in declaration order. -/
def btstack_crypto_operations : List btstack_crypto_operation_t :=
  [BTSTACK_CRYPTO_RANDOM, BTSTACK_CRYPTO_AES128, BTSTACK_CRYPTO_CMAC_GENERATOR,
   BTSTACK_CRYPTO_CMAC_MESSAGE, BTSTACK_CRYPTO_EC_P192_GENERATE_KEY,
   BTSTACK_CRYPTO_EC_P192_CALCULATE_DHKEY]

/-- The numeric code of a value of `btstack_crypto_operation_t`. -/
def btstack_crypto_operation_t.code (op : btstack_crypto_operation_t) : Nat := op.val

/-- Modelled from the spec: `btstack_context_callback_registration_t`, declared in
`btstack_defines.h` (not among the sources).  The spec describes it as the completion
notification target, a pair of a function reference and an opaque context pointer. -/
structure btstack_context_callback_registration_t where
  callback : pointer
  context : pointer
  deriving DecidableEq, Repr

/-- The struct `btstack_crypto_t` (lines 65-68): the header common to all requests. -/
structure btstack_crypto_t where
  context_callback : btstack_context_callback_registration_t
  operation : btstack_crypto_operation_t
  deriving DecidableEq, Repr

/-- The struct `btstack_crypto_random_t` (lines 70-74). -/
structure btstack_crypto_random_t where
  btstack_crypto : btstack_crypto_t
  buffer : pointer
  size : uint16_t
  deriving DecidableEq, Repr

/-- The struct `btstack_crypto_aes128_t` (lines 76-81). -/
structure btstack_crypto_aes128_t where
  btstack_crypto : btstack_crypto_t
  key : pointer
  plaintext : pointer
  ciphertext : pointer
  deriving DecidableEq, Repr

/-- The anonymous union inside `btstack_crypto_aes128_cmac_t` (lines 87-90): either a
byte accessor `uint8_t (*get_byte_callback)(uint16_t pos)` or a contiguous message
`const uint8_t * message`. -/
inductive cmac_message_source
  | get_byte_callback (f : uint16_t → uint8_t)
  | message (p : pointer)

/-- The struct `btstack_crypto_aes128_cmac_t` (lines 83-92). -/
structure btstack_crypto_aes128_cmac_t where
  btstack_crypto : btstack_crypto_t
  key : pointer
  size : uint16_t
  source : cmac_message_source
  hash : pointer

/-- The struct `btstack_crypto_ec_p192_t` (lines 94-98). -/
structure btstack_crypto_ec_p192_t where
  btstack_crypto : btstack_crypto_t
  public_key : pointer
  dhkey : pointer
  deriving DecidableEq, Repr

/-- A request as the engine receives it: a pointer to one of the four request records,
each of which starts with the common header. -/
inductive crypto_request
  | random (r : btstack_crypto_random_t)
  | aes128 (r : btstack_crypto_aes128_t)
  | cmac (r : btstack_crypto_aes128_cmac_t)
  | ec_p192 (r : btstack_crypto_ec_p192_t)

/-- The common header of a request (the first member of each record). -/
def crypto_request.header : crypto_request → btstack_crypto_t
  | .random r => r.btstack_crypto
  | .aes128 r => r.btstack_crypto
  | .cmac r => r.btstack_crypto
  | .ec_p192 r => r.btstack_crypto

/-! ### The prototypes of the submit interface, as data -/

/-- The four request record types of `btstack_crypto.h`. -/
inductive request_record
  | btstack_crypto_random_t
  | btstack_crypto_aes128_t
  | btstack_crypto_aes128_cmac_t
  | btstack_crypto_ec_p192_t
  deriving DecidableEq, Repr

/-- The C types that occur in the prototypes of `btstack_crypto.h`: `void`, `uint8_t`,
`uint16_t`, a request record, `t *`, `const t *`, and a pointer to a function of one
argument `ret (*)(arg)`. -/
inductive c_type
  | void
  | uint8
  | uint16
  | record (k : request_record)
  | ptr (t : c_type)
  | const_ptr (t : c_type)
  | fn_ptr (ret arg : c_type)
  deriving DecidableEq, Repr

/-- A C function prototype: return type and parameter types, in order. -/
structure c_prototype where
  returns : c_type
  params : List c_type
  deriving DecidableEq, Repr

/-- The six submit operations declared in `btstack_crypto.h` (lines 105-170). -/
inductive submit_operation
  | btstack_crypto_random_generate
  | btstack_crypto_aes128_encrypt
  | btstack_crypto_aes128_cmac_generator
  | btstack_crypto_aes128_cmac_message
  | btstack_crypto_ec_p192_generate_key
  | btstack_crypto_ec_p192_calculate_dhkey
  deriving DecidableEq, Repr

/-- The type of the completion callback parameter, `void (* callback)(void * arg)`. -/
def c_callback : c_type := .fn_ptr .void (.ptr .void)

/-- The prototype of each submit operation, as declared in `btstack_crypto.h`
(lines 114, 126, 137, 149, 160, 170). -/
def submit_operation.prototype : submit_operation → c_prototype
  | .btstack_crypto_random_generate =>
    ⟨.void, [.ptr (.record .btstack_crypto_random_t), .ptr .uint8, .uint16,
      c_callback, .ptr .void]⟩
  | .btstack_crypto_aes128_encrypt =>
    ⟨.void, [.ptr (.record .btstack_crypto_aes128_t), .const_ptr .uint8,
      .const_ptr .uint8, .ptr .uint8, c_callback, .ptr .void]⟩
  | .btstack_crypto_aes128_cmac_generator =>
    ⟨.void, [.ptr (.record .btstack_crypto_aes128_cmac_t), .const_ptr .uint8, .uint16,
      .fn_ptr .uint8 .uint16, .ptr .uint8, c_callback, .ptr .void]⟩
  | .btstack_crypto_aes128_cmac_message =>
    ⟨.void, [.ptr (.record .btstack_crypto_aes128_cmac_t), .const_ptr .uint8, .uint16,
      .const_ptr .uint8, .ptr .uint8, c_callback, .ptr .void]⟩
  | .btstack_crypto_ec_p192_generate_key =>
    ⟨.void, [.ptr (.record .btstack_crypto_ec_p192_t), .ptr .uint8, c_callback,
      .ptr .void]⟩
  | .btstack_crypto_ec_p192_calculate_dhkey =>
    ⟨.void, [.ptr (.record .btstack_crypto_ec_p192_t), .const_ptr .uint8, .ptr .uint8,
      c_callback, .ptr .void]⟩

/-- The last two parameters of a prototype: for a submit operation, the completion
callback and the argument it is called with. -/
def c_prototype.completion (p : c_prototype) : List c_type :=
  p.params.drop (p.params.length - 2)

/-! ## Part 2: the engine, modelled from the specification -/

/-- Caller memory: the byte stored at each address. -/
abbrev Memory := Nat → Nat

/-- The byte at address `a`. -/
def mem_read (m : Memory) (a : pointer) : Nat := m a % 256

/-- The `n` bytes from address `a` on. -/
def mem_read_bytes (m : Memory) (a : pointer) (n : Nat) : List Nat :=
  (List.range n).map (fun i => mem_read m (a + i))

/-- Memory after the byte `v` is stored at address `a`. -/
def mem_write (m : Memory) (a : pointer) (v : Nat) : Memory :=
  fun x => if x = a then v % 256 else m x

/-- Memory after the bytes of the list are stored from address `a` on. -/
def mem_write_bytes (m : Memory) (a : pointer) : List Nat → Memory
  | [] => m
  | v :: vs => mem_write_bytes (mem_write m a v) (a + 1) vs

/-- Exactly `n` bytes of `l`: truncated, or zero-filled when `l` is shorter. -/
def fixed_bytes (n : Nat) (l : List Nat) : List Nat :=
  (List.range n).map (fun i => l.getD i 0 % 256)

/-- Bytewise XOR of two blocks. -/
def xor_bytes : List Nat → List Nat → List Nat
  | a :: as, b :: bs => (a ^^^ b) :: xor_bytes as bs
  | _, _ => []

/-! ### Block-cipher backend: AES-128 (FIPS-197) -/

/-- Modelled from the spec: the S-box of the Block-Cipher Backend (AES-128, FIPS-197
figure 7); the backend is an external collaborator with no source in the repository. -/
def aes_sbox_table : List Nat :=
  [
   0x63, 0x7c, 0x77, 0x7b, 0xf2, 0x6b, 0x6f, 0xc5, 0x30, 0x01, 0x67, 0x2b, 0xfe, 0xd7, 0xab, 0x76,
   0xca, 0x82, 0xc9, 0x7d, 0xfa, 0x59, 0x47, 0xf0, 0xad, 0xd4, 0xa2, 0xaf, 0x9c, 0xa4, 0x72, 0xc0,
   0xb7, 0xfd, 0x93, 0x26, 0x36, 0x3f, 0xf7, 0xcc, 0x34, 0xa5, 0xe5, 0xf1, 0x71, 0xd8, 0x31, 0x15,
   0x04, 0xc7, 0x23, 0xc3, 0x18, 0x96, 0x05, 0x9a, 0x07, 0x12, 0x80, 0xe2, 0xeb, 0x27, 0xb2, 0x75,
   0x09, 0x83, 0x2c, 0x1a, 0x1b, 0x6e, 0x5a, 0xa0, 0x52, 0x3b, 0xd6, 0xb3, 0x29, 0xe3, 0x2f, 0x84,
   0x53, 0xd1, 0x00, 0xed, 0x20, 0xfc, 0xb1, 0x5b, 0x6a, 0xcb, 0xbe, 0x39, 0x4a, 0x4c, 0x58, 0xcf,
   0xd0, 0xef, 0xaa, 0xfb, 0x43, 0x4d, 0x33, 0x85, 0x45, 0xf9, 0x02, 0x7f, 0x50, 0x3c, 0x9f, 0xa8,
   0x51, 0xa3, 0x40, 0x8f, 0x92, 0x9d, 0x38, 0xf5, 0xbc, 0xb6, 0xda, 0x21, 0x10, 0xff, 0xf3, 0xd2,
   0xcd, 0x0c, 0x13, 0xec, 0x5f, 0x97, 0x44, 0x17, 0xc4, 0xa7, 0x7e, 0x3d, 0x64, 0x5d, 0x19, 0x73,
   0x60, 0x81, 0x4f, 0xdc, 0x22, 0x2a, 0x90, 0x88, 0x46, 0xee, 0xb8, 0x14, 0xde, 0x5e, 0x0b, 0xdb,
   0xe0, 0x32, 0x3a, 0x0a, 0x49, 0x06, 0x24, 0x5c, 0xc2, 0xd3, 0xac, 0x62, 0x91, 0x95, 0xe4, 0x79,
   0xe7, 0xc8, 0x37, 0x6d, 0x8d, 0xd5, 0x4e, 0xa9, 0x6c, 0x56, 0xf4, 0xea, 0x65, 0x7a, 0xae, 0x08,
   0xba, 0x78, 0x25, 0x2e, 0x1c, 0xa6, 0xb4, 0xc6, 0xe8, 0xdd, 0x74, 0x1f, 0x4b, 0xbd, 0x8b, 0x8a,
   0x70, 0x3e, 0xb5, 0x66, 0x48, 0x03, 0xf6, 0x0e, 0x61, 0x35, 0x57, 0xb9, 0x86, 0xc1, 0x1d, 0x9e,
   0xe1, 0xf8, 0x98, 0x11, 0x69, 0xd9, 0x8e, 0x94, 0x9b, 0x1e, 0x87, 0xe9, 0xce, 0x55, 0x28, 0xdf,
   0x8c, 0xa1, 0x89, 0x0d, 0xbf, 0xe6, 0x42, 0x68, 0x41, 0x99, 0x2d, 0x0f, 0xb0, 0x54, 0xbb, 0x16]

/-- Modelled from the spec: S-box lookup of the Block-Cipher Backend (FIPS-197
SubBytes on one byte). -/
def aes_sbox (b : Nat) : Nat := aes_sbox_table.getD (b % 256) 0

/-- Modelled from the spec: multiplication by `x` in GF(2^8) modulo
`x^8 + x^4 + x^3 + x + 1` (FIPS-197 `xtime`), part of the Block-Cipher Backend. -/
def aes_xtime (b : Nat) : Nat :=
  if b % 256 < 128 then 2 * (b % 256) else (2 * (b % 256) - 256) ^^^ 0x1b

/-- Modelled from the spec: FIPS-197 SubBytes, part of the Block-Cipher Backend. -/
def aes_sub_bytes (s : List Nat) : List Nat := s.map aes_sbox

/-- Modelled from the spec: FIPS-197 ShiftRows on the column-major state, part of
the Block-Cipher Backend. -/
def aes_shift_rows : List Nat → List Nat
  | [s0, s1, s2, s3, s4, s5, s6, s7, s8, s9, s10, s11, s12, s13, s14, s15] =>
    [s0, s5, s10, s15, s4, s9, s14, s3, s8, s13, s2, s7, s12, s1, s6, s11]
  | s => s

/-- Modelled from the spec: FIPS-197 MixColumns on one column, part of the
Block-Cipher Backend. -/
def aes_mix_column (a0 a1 a2 a3 : Nat) : List Nat :=
  [ aes_xtime a0 ^^^ (aes_xtime a1 ^^^ a1) ^^^ a2 ^^^ a3,
    a0 ^^^ aes_xtime a1 ^^^ (aes_xtime a2 ^^^ a2) ^^^ a3,
    a0 ^^^ a1 ^^^ aes_xtime a2 ^^^ (aes_xtime a3 ^^^ a3),
    (aes_xtime a0 ^^^ a0) ^^^ a1 ^^^ a2 ^^^ aes_xtime a3 ]

/-- Modelled from the spec: FIPS-197 MixColumns, part of the Block-Cipher Backend. -/
def aes_mix_columns : List Nat → List Nat
  | a0 :: a1 :: a2 :: a3 :: rest => aes_mix_column a0 a1 a2 a3 ++ aes_mix_columns rest
  | _ => []

/-- Modelled from the spec: one step of the FIPS-197 key expansion for a 128-bit key
(the next round key from the previous one), part of the Block-Cipher Backend. -/
def aes_next_round_key (rcon : Nat) : List Nat → List Nat
  | [k0, k1, k2, k3, k4, k5, k6, k7, k8, k9, k10, k11, k12, k13, k14, k15] =>
    let w0 := xor_bytes [k0, k1, k2, k3]
      [aes_sbox k13 ^^^ rcon, aes_sbox k14, aes_sbox k15, aes_sbox k12]
    let w1 := xor_bytes [k4, k5, k6, k7] w0
    let w2 := xor_bytes [k8, k9, k10, k11] w1
    let w3 := xor_bytes [k12, k13, k14, k15] w2
    w0 ++ w1 ++ w2 ++ w3
  | k => k

/-- Modelled from the spec: the round constants of the FIPS-197 key expansion. -/
def aes_rcon : List Nat := [0x01, 0x02, 0x04, 0x08, 0x10, 0x20, 0x40, 0x80, 0x1b, 0x36]

/-- Modelled from the spec: the rounds of the FIPS-197 cipher, one per round
constant; the last round has no MixColumns. -/
def aes_rounds : List Nat → List Nat → List Nat → List Nat
  | [], _, s => s
  | [rc], rk, s =>
    xor_bytes (aes_shift_rows (aes_sub_bytes s)) (aes_next_round_key rc rk)
  | rc :: rcs, rk, s =>
    aes_rounds rcs (aes_next_round_key rc rk)
      (xor_bytes (aes_mix_columns (aes_shift_rows (aes_sub_bytes s)))
        (aes_next_round_key rc rk))

/-- Modelled from the spec: the Block-Cipher Backend, `encrypt_block(key[16], in[16])
-> out[16]`, as AES-128 (FIPS-197). -/
def aes128_encrypt_block (key input : List Nat) : List Nat :=
  aes_rounds aes_rcon (fixed_bytes 16 key) (xor_bytes (fixed_bytes 16 input) (fixed_bytes 16 key))

/-! ### CMAC subroutine -/

/-- Modelled from the spec: the 16-byte block, read as a big-endian number, shifted
left by one bit (the shift inside the doubling of section 4.4, step 1). -/
def cmac_shift_left : List Nat → List Nat
  | [] => []
  | [b] => [(2 * b) % 256]
  | b :: c :: rest => ((2 * b + c % 256 / 128) % 256) :: cmac_shift_left (c :: rest)

/-- Modelled from the spec: the fixed irreducible-polynomial constant of the doubling
in GF(2^128), `0x87` in the last byte. -/
def cmac_rb : List Nat := [0, 0, 0, 0, 0, 0, 0, 0, 0, 0, 0, 0, 0, 0, 0, 0x87]

/-- Modelled from the spec: the standard doubling-in-GF(2^128) derivation of section
4.4, step 1. -/
def cmac_double (l : List Nat) : List Nat :=
  if 128 ≤ l.headD 0 % 256 then xor_bytes (cmac_shift_left l) cmac_rb
  else cmac_shift_left l

/-- Modelled from the spec: the number of 16-byte blocks of a message; a zero-length
message still has one (padded) block. -/
def cmac_block_count (size : Nat) : Nat :=
  if size = 0 then 1 else (size + 15) / 16

/-- Modelled from the spec: whether the last message block is a full 16 bytes. -/
def cmac_last_block_full (size : Nat) : Bool :=
  size != 0 && size % 16 == 0

/-- Modelled from the spec: the subkey for the last block, from the encryption `l` of
the all-zero block: doubled once (K1), and once more (K2) if the last message block is
not a full 16 bytes. -/
def cmac_subkey (l : List Nat) (size : Nat) : List Nat :=
  if cmac_last_block_full size then cmac_double l else cmac_double (cmac_double l)

/-- Modelled from the spec: the byte of the message at position `pos`, read through
the message source: from the contiguous buffer or from the accessor function. -/
def cmac_get_byte (m : Memory) : cmac_message_source → Nat → Nat
  | .message p, pos => mem_read m (p + pos)
  | .get_byte_callback f, pos => (f (Fin.ofNat pos)).val

/-- Modelled from the spec: block `i` of the message as it is XORed into the running
value (section 4.4, step 2): the final block is XORed with K1 if it is a full block,
else padded with a single `0x80` byte and zero-filled, then XORed with K2; `k` is the
subkey `cmac_subkey` selected. -/
def cmac_block (read : Nat → Nat) (size : Nat) (k : List Nat) (i : Nat) : List Nat :=
  if i + 1 = cmac_block_count size then
    if cmac_last_block_full size then
      xor_bytes ((List.range 16).map (fun j => read (16 * i + j))) k
    else
      xor_bytes ((List.range 16).map (fun j =>
        if 16 * i + j < size then read (16 * i + j)
        else if 16 * i + j = size then 0x80 else 0)) k
  else (List.range 16).map (fun j => read (16 * i + j))

/-- Modelled from the spec: the all-zero block. -/
def cmac_zero_block : List Nat := [0, 0, 0, 0, 0, 0, 0, 0, 0, 0, 0, 0, 0, 0, 0, 0]

/-! ### Backends, progress state and engine state -/

/-- Modelled from the spec: the Random Backend and the EC Backend, external
collaborators: the random source delivers the bytes `random_byte 0, random_byte 1, ..`
in chunks of at most `chunk_limit` bytes per call; the EC backend yields the public
key of the generated pair and the DH key for a peer public key. -/
structure crypto_backend where
  chunk_limit : Nat
  chunk_limit_pos : 0 < chunk_limit
  random_byte : Nat → Nat
  ec_public_key : List Nat
  ec_dhkey : List Nat → List Nat

/-- Modelled from the spec: the internal progress state of a request: which step of its
state machine it is on (sub-chunk offset for Random, block index for CMAC, phase for the
EC operations). -/
inductive crypto_progress
  | initial
  | random (bytes_delivered : Nat)
  | aes128
  | cmac_derive_subkey
  | cmac_encrypt_block (i : Nat) (k : List Nat)
  | ec_p192
  deriving DecidableEq, Repr

/-- Modelled from the spec: a submitted Request as the Scheduler tracks it: the
caller's request record together with its internal progress state. -/
structure crypto_entry where
  request : crypto_request
  progress : crypto_progress

/-- Modelled from the spec: the engine state: caller memory, the FIFO of pending
requests, the single active-request slot, the result of the outstanding backend call,
the position of the random source, the backend call counters, and the completion
notifications fired so far, in order. -/
structure crypto_engine where
  memory : Memory
  queue : List crypto_entry
  active : Option crypto_entry
  pending : List Nat
  random_cursor : Nat
  random_calls : Nat
  aes_calls : Nat
  ec_calls : Nat
  completed : List crypto_request

/-- Modelled from the spec: `btstack_crypto_init` (declared line 103): the engine with
an empty queue and no active request. -/
def btstack_crypto_init (m : Memory) : crypto_engine :=
  { memory := m, queue := [], active := none, pending := [], random_cursor := 0,
    random_calls := 0, aes_calls := 0, ec_calls := 0, completed := [] }

/-- Modelled from the spec: the `n` bytes the random source delivers from position
`start` on. -/
def random_bytes (b : crypto_backend) (start n : Nat) : List Nat :=
  (List.range n).map (fun i => b.random_byte (start + i) % 256)

/-- Modelled from the spec: one call of the Random Backend for
`min(remaining, chunk_limit)` bytes. -/
def random_dispatch (b : crypto_backend) (e : crypto_engine) (remaining : Nat) :
    crypto_engine :=
  { e with
    pending := random_bytes b e.random_cursor (min remaining b.chunk_limit)
    random_cursor := e.random_cursor + min remaining b.chunk_limit
    random_calls := e.random_calls + 1 }

/-- Modelled from the spec: one call of the Block-Cipher Backend. -/
def aes_dispatch (e : crypto_engine) (key input : List Nat) : crypto_engine :=
  { e with pending := aes128_encrypt_block key input, aes_calls := e.aes_calls + 1 }

/-- Modelled from the spec: one command to the EC Backend, with its result. -/
def ec_dispatch (e : crypto_engine) (result : List Nat) : crypto_engine :=
  { e with pending := result, ec_calls := e.ec_calls + 1 }

/-- Modelled from the spec: the first step of a request that has just become active:
its first backend call is issued.  A zero-length Random request completes at once
without a backend call (`none`). -/
def crypto_begin (b : crypto_backend) (e : crypto_engine) :
    crypto_request → crypto_engine × Option crypto_progress
  | .random r =>
    if r.size.val = 0 then (e, none)
    else (random_dispatch b e r.size.val, some (.random 0))
  | .aes128 r =>
    (aes_dispatch e (mem_read_bytes e.memory r.key 16)
      (mem_read_bytes e.memory r.plaintext 16), some .aes128)
  | .cmac r =>
    (aes_dispatch e (mem_read_bytes e.memory r.key 16) cmac_zero_block,
      some .cmac_derive_subkey)
  | .ec_p192 r =>
    if r.btstack_crypto.operation = BTSTACK_CRYPTO_EC_P192_GENERATE_KEY then
      (ec_dispatch e b.ec_public_key, some .ec_p192)
    else
      (ec_dispatch e (b.ec_dhkey (mem_read_bytes e.memory r.public_key 64)),
        some .ec_p192)

/-- Modelled from the spec: one step of the active request's state machine: the result
of the outstanding backend call is consumed, and either the next backend call is issued
(`some` next progress state) or the request's output is complete (`none`). -/
def crypto_step (b : crypto_backend) (e : crypto_engine) (ent : crypto_entry) :
    crypto_engine × Option crypto_progress :=
  match ent.request, ent.progress with
  | .random r, .random d =>
    if d + e.pending.length = r.size.val then
      ({ e with memory := mem_write_bytes e.memory (r.buffer + d) e.pending }, none)
    else
      (random_dispatch b
        { e with memory := mem_write_bytes e.memory (r.buffer + d) e.pending }
        (r.size.val - (d + e.pending.length)),
       some (.random (d + e.pending.length)))
  | .aes128 r, .aes128 =>
    ({ e with memory := mem_write_bytes e.memory r.ciphertext (fixed_bytes 16 e.pending) },
      none)
  | .cmac r, .cmac_derive_subkey =>
    (aes_dispatch e (mem_read_bytes e.memory r.key 16)
      (xor_bytes cmac_zero_block
        (cmac_block (cmac_get_byte e.memory r.source) r.size.val
          (cmac_subkey e.pending r.size.val) 0)),
     some (.cmac_encrypt_block 0 (cmac_subkey e.pending r.size.val)))
  | .cmac r, .cmac_encrypt_block i k =>
    if i + 1 = cmac_block_count r.size.val then
      ({ e with memory := mem_write_bytes e.memory r.hash (fixed_bytes 16 e.pending) }, none)
    else
      (aes_dispatch e (mem_read_bytes e.memory r.key 16)
        (xor_bytes e.pending
          (cmac_block (cmac_get_byte e.memory r.source) r.size.val k (i + 1))),
       some (.cmac_encrypt_block (i + 1) k))
  | .ec_p192 r, .ec_p192 =>
    if r.btstack_crypto.operation = BTSTACK_CRYPTO_EC_P192_GENERATE_KEY then
      ({ e with memory := mem_write_bytes e.memory r.public_key (fixed_bytes 64 e.pending) },
        none)
    else
      ({ e with memory := mem_write_bytes e.memory r.dhkey (fixed_bytes 32 e.pending) },
        none)
  | _, p => (e, some p)

/-- Modelled from the spec: the completion notification of a request is invoked. -/
def crypto_complete (e : crypto_engine) (r : crypto_request) : crypto_engine :=
  { e with completed := e.completed ++ [r] }

/-- Modelled from the spec: the next queued request is promoted to active and its first
step begun; a request that completes at once is notified and the one after it promoted
in turn.  With nothing left the engine is idle. -/
def crypto_promote (b : crypto_backend) : List crypto_entry → crypto_engine → crypto_engine
  | [], e => { e with queue := [], active := none }
  | ent :: rest, e =>
    match crypto_begin b e ent.request with
    | (e1, some p) => { e1 with queue := rest, active := some ⟨ent.request, p⟩ }
    | (e1, none) => crypto_promote b rest (crypto_complete e1 ent.request)

/-- Modelled from the spec: `submit(request)`: the request is appended to the queue in
its initial state; if no request is active it becomes active immediately. -/
def crypto_submit (b : crypto_backend) (e : crypto_engine) (r : crypto_request) :
    crypto_engine :=
  match e.active with
  | some _ => { e with queue := e.queue ++ [⟨r, .initial⟩] }
  | none => crypto_promote b (e.queue ++ [⟨r, .initial⟩]) e

/-- Modelled from the spec: `process()`: the active request's state machine advances by
exactly one step; if that completes the request, its completion notification is invoked,
it is removed, and the next queued request is promoted to active. -/
def crypto_process (b : crypto_backend) (e : crypto_engine) : crypto_engine :=
  match e.active with
  | none => e
  | some ent =>
    match crypto_step b e ent with
    | (e1, some p) => { e1 with active := some ⟨ent.request, p⟩ }
    | (e1, none) => crypto_promote b e1.queue (crypto_complete e1 ent.request)

/-- Modelled from the spec: `process()` invoked `n` times. -/
def crypto_process_n (b : crypto_backend) : Nat → crypto_engine → crypto_engine
  | 0, e => e
  | n + 1, e => crypto_process_n b n (crypto_process b e)

/-! ### The submit interface of `btstack_crypto.h` -/

/-- Modelled from the spec: the request record `btstack_crypto_random_generate`
(declared line 114) fills in from its parameters. -/
def random_request (buffer : pointer) (size : uint16_t) (callback callback_arg : pointer) :
    btstack_crypto_random_t :=
  { btstack_crypto := ⟨⟨callback, callback_arg⟩, BTSTACK_CRYPTO_RANDOM⟩,
    buffer := buffer, size := size }

/-- Modelled from the spec: `btstack_crypto_random_generate` (declared line 114): fills
in the request record and submits it. -/
def btstack_crypto_random_generate (b : crypto_backend) (e : crypto_engine)
    (buffer : pointer) (size : uint16_t) (callback callback_arg : pointer) :
    crypto_engine :=
  crypto_submit b e (.random (random_request buffer size callback callback_arg))

/-- Modelled from the spec: `btstack_crypto_aes128_encrypt` (declared line 126). -/
def btstack_crypto_aes128_encrypt (b : crypto_backend) (e : crypto_engine)
    (key plaintext ciphertext : pointer) (callback callback_arg : pointer) :
    crypto_engine :=
  crypto_submit b e (.aes128
    { btstack_crypto := ⟨⟨callback, callback_arg⟩, BTSTACK_CRYPTO_AES128⟩,
      key := key, plaintext := plaintext, ciphertext := ciphertext })

/-- Modelled from the spec: the request record `btstack_crypto_aes128_cmac_generator`
(declared line 137) fills in from its parameters. -/
def cmac_generator_request (key : pointer) (size : uint16_t)
    (get_byte_callback : uint16_t → uint8_t) (hash : pointer)
    (callback callback_arg : pointer) : btstack_crypto_aes128_cmac_t :=
  { btstack_crypto := ⟨⟨callback, callback_arg⟩, BTSTACK_CRYPTO_CMAC_GENERATOR⟩,
    key := key, size := size, source := .get_byte_callback get_byte_callback,
    hash := hash }

/-- Modelled from the spec: the request record `btstack_crypto_aes128_cmac_message`
(declared line 149) fills in from its parameters. -/
def cmac_message_request (key : pointer) (len : uint16_t) (message : pointer)
    (hash : pointer) (callback callback_arg : pointer) : btstack_crypto_aes128_cmac_t :=
  { btstack_crypto := ⟨⟨callback, callback_arg⟩, BTSTACK_CRYPTO_CMAC_MESSAGE⟩,
    key := key, size := len, source := .message message, hash := hash }

/-- Modelled from the spec: `btstack_crypto_aes128_cmac_generator` (declared line 137). -/
def btstack_crypto_aes128_cmac_generator (b : crypto_backend) (e : crypto_engine)
    (key : pointer) (size : uint16_t) (get_byte_callback : uint16_t → uint8_t)
    (hash : pointer) (callback callback_arg : pointer) : crypto_engine :=
  crypto_submit b e
    (.cmac (cmac_generator_request key size get_byte_callback hash callback callback_arg))

/-- Modelled from the spec: `btstack_crypto_aes128_cmac_message` (declared line 149). -/
def btstack_crypto_aes128_cmac_message (b : crypto_backend) (e : crypto_engine)
    (key : pointer) (len : uint16_t) (message : pointer) (hash : pointer)
    (callback callback_arg : pointer) : crypto_engine :=
  crypto_submit b e (.cmac (cmac_message_request key len message hash callback callback_arg))

/-- Modelled from the spec: `btstack_crypto_ec_p192_generate_key` (declared line 160). -/
def btstack_crypto_ec_p192_generate_key (b : crypto_backend) (e : crypto_engine)
    (public_key : pointer) (callback callback_arg : pointer) : crypto_engine :=
  crypto_submit b e (.ec_p192
    { btstack_crypto := ⟨⟨callback, callback_arg⟩, BTSTACK_CRYPTO_EC_P192_GENERATE_KEY⟩,
      public_key := public_key, dhkey := 0 })

/-- Modelled from the spec: `btstack_crypto_ec_p192_calculate_dhkey` (declared line
170). -/
def btstack_crypto_ec_p192_calculate_dhkey (b : crypto_backend) (e : crypto_engine)
    (public_key dhkey : pointer) (callback callback_arg : pointer) : crypto_engine :=
  crypto_submit b e (.ec_p192
    { btstack_crypto := ⟨⟨callback, callback_arg⟩, BTSTACK_CRYPTO_EC_P192_CALCULATE_DHKEY⟩,
      public_key := public_key, dhkey := dhkey })

/-! ### Runs of the engine -/

/-- Modelled from the spec: what the host does to the engine: submit a request, or
invoke `process()`. -/
inductive crypto_event
  | submit (r : crypto_request)
  | process

/-- Modelled from the spec: the engine after one event. -/
def crypto_apply (b : crypto_backend) (e : crypto_engine) : crypto_event → crypto_engine
  | .submit r => crypto_submit b e r
  | .process => crypto_process b e

/-- Modelled from the spec: the engine after a sequence of events. -/
def crypto_run (b : crypto_backend) (e : crypto_engine) (t : List crypto_event) :
    crypto_engine :=
  t.foldl (crypto_apply b) e

/-- The requests a sequence of events submits, in submission order. -/
def submitted : List crypto_event → List crypto_request
  | [] => []
  | .submit r :: t => r :: submitted t
  | .process :: t => submitted t

/-- The requests the engine holds: the active one, then the queue. -/
def in_flight (e : crypto_engine) : List crypto_entry :=
  e.active.toList ++ e.queue

/-- Whether an entry has been advanced past its initial state. -/
def crypto_entry.advanced (ent : crypto_entry) : Bool :=
  decide (ent.progress ≠ .initial)

/-- The number of `process()` steps a request still needs, given its progress state
and the chunk limit of the random backend. -/
def entry_ticks (b : crypto_backend) (ent : crypto_entry) : Nat :=
  match ent.request, ent.progress with
  | .random r, .initial => (r.size.val + b.chunk_limit - 1) / b.chunk_limit
  | .random r, .random d => (r.size.val - d + b.chunk_limit - 1) / b.chunk_limit
  | .aes128 _, _ => 1
  | .cmac r, .initial => 1 + cmac_block_count r.size.val
  | .cmac r, .cmac_derive_subkey => 1 + cmac_block_count r.size.val
  | .cmac r, .cmac_encrypt_block i _ => cmac_block_count r.size.val - i
  | .ec_p192 _, _ => 1
  | _, _ => 0

/-- The number of `process()` steps until the engine is idle. -/
def engine_ticks (b : crypto_backend) (e : crypto_engine) : Nat :=
  ((in_flight e).map (entry_ticks b)).sum

/-- The active entry is in a state of its own state machine, with the backend call it
waits for outstanding. -/
def active_ok (b : crypto_backend) (e : crypto_engine) (ent : crypto_entry) : Prop :=
  match ent.request, ent.progress with
  | .random r, .random d =>
    d < r.size.val ∧ e.pending.length = min (r.size.val - d) b.chunk_limit
  | .aes128 _, .aes128 => True
  | .cmac _, .cmac_derive_subkey => True
  | .cmac r, .cmac_encrypt_block i _ => i < cmac_block_count r.size.val
  | .ec_p192 _, .ec_p192 => True
  | _, _ => False

/-- The scheduler invariant: queued requests are in their initial state, the active
request is in a state of its state machine, and the engine is idle only with an empty
queue. -/
structure crypto_inv (b : crypto_backend) (e : crypto_engine) : Prop where
  queue_initial : ∀ ent ∈ e.queue, ent.progress = .initial
  active_state : ∀ ent, e.active = some ent → active_ok b e ent
  idle_empty : e.active = none → e.queue = []

/-! ### Reference functions and the states of a single request's run -/

/-- The running value of the CMAC chain after block `i` (section 4.4, step 3): it
starts at the all-zero block, and each block is XORed into it and the result encrypted
under the message key. -/
def cmac_chain (key : List Nat) (read : Nat → Nat) (size : Nat) (k : List Nat) :
    Nat → List Nat
  | 0 => aes128_encrypt_block key (xor_bytes cmac_zero_block (cmac_block read size k 0))
  | i + 1 =>
    aes128_encrypt_block key
      (xor_bytes (cmac_chain key read size k i) (cmac_block read size k (i + 1)))

/-- AES-CMAC of the `size` message bytes `read 0 .. read (size - 1)` under `key`, as
section 4.4 of the spec defines it. -/
def aes_cmac (key : List Nat) (read : Nat → Nat) (size : Nat) : List Nat :=
  cmac_chain key read size
    (cmac_subkey (aes128_encrypt_block key cmac_zero_block) size)
    (cmac_block_count size - 1)

/-- The key of a CMAC request, as read from caller memory. -/
def cmac_key (e : crypto_engine) (r : btstack_crypto_aes128_cmac_t) : List Nat :=
  mem_read_bytes e.memory r.key 16

/-- The subkey a CMAC request uses for its last block. -/
def cmac_request_subkey (e : crypto_engine) (r : btstack_crypto_aes128_cmac_t) :
    List Nat :=
  cmac_subkey (aes128_encrypt_block (cmac_key e r) cmac_zero_block) r.size.val

/-- The engine that was idle as `e` and now waits for the subkey encryption of the
CMAC request `r`. -/
def cmac_wait_subkey (e : crypto_engine) (r : btstack_crypto_aes128_cmac_t) :
    crypto_engine :=
  { e with
    queue := []
    active := some ⟨.cmac r, .cmac_derive_subkey⟩
    pending := aes128_encrypt_block (cmac_key e r) cmac_zero_block
    aes_calls := e.aes_calls + 1 }

/-- The engine that was idle as `e` and now waits for the encryption of block `i` of
the CMAC request `r`. -/
def cmac_wait_block (e : crypto_engine) (r : btstack_crypto_aes128_cmac_t) (i : Nat) :
    crypto_engine :=
  { e with
    queue := []
    active := some ⟨.cmac r, .cmac_encrypt_block i (cmac_request_subkey e r)⟩
    pending := cmac_chain (cmac_key e r) (cmac_get_byte e.memory r.source) r.size.val
      (cmac_request_subkey e r) i
    aes_calls := e.aes_calls + 2 + i }

/-- The engine that was idle as `e`, after the CMAC request `r` has completed. -/
def cmac_done (e : crypto_engine) (r : btstack_crypto_aes128_cmac_t) : crypto_engine :=
  { e with
    memory := mem_write_bytes e.memory r.hash
      (fixed_bytes 16 (aes_cmac (cmac_key e r) (cmac_get_byte e.memory r.source)
        r.size.val))
    queue := []
    active := none
    pending := aes_cmac (cmac_key e r) (cmac_get_byte e.memory r.source) r.size.val
    aes_calls := e.aes_calls + 1 + cmac_block_count r.size.val
    completed := e.completed ++ [.cmac r] }

/-- The engine that was idle as `e` and now waits for chunk `j` of the Random request
`r`, the chunks before it delivered. -/
def random_wait (b : crypto_backend) (e : crypto_engine) (r : btstack_crypto_random_t)
    (j : Nat) : crypto_engine :=
  { e with
    memory := mem_write_bytes e.memory r.buffer
      (random_bytes b e.random_cursor (j * b.chunk_limit))
    queue := []
    active := some ⟨.random r, .random (j * b.chunk_limit)⟩
    pending := random_bytes b (e.random_cursor + j * b.chunk_limit)
      (min (r.size.val - j * b.chunk_limit) b.chunk_limit)
    random_cursor := e.random_cursor + j * b.chunk_limit
      + min (r.size.val - j * b.chunk_limit) b.chunk_limit
    random_calls := e.random_calls + j + 1 }

/-! ### The published AES-CMAC examples -/

/-- The key of the AES-128 CMAC examples of NIST SP 800-38B and RFC 4493. -/
def nist_key : List Nat :=
  [0x2b, 0x7e, 0x15, 0x16, 0x28, 0xae, 0xd2, 0xa6,
   0xab, 0xf7, 0x15, 0x88, 0x09, 0xcf, 0x4f, 0x3c]

/-- The 64-byte message of the examples; the shorter messages are its first 16 and
20 bytes. -/
def nist_message : List Nat :=
  [0x6b, 0xc1, 0xbe, 0xe2, 0x2e, 0x40, 0x9f, 0x96,
   0xe9, 0x3d, 0x7e, 0x11, 0x73, 0x93, 0x17, 0x2a,
   0xae, 0x2d, 0x8a, 0x57, 0x1e, 0x03, 0xac, 0x9c,
   0x9e, 0xb7, 0x6f, 0xac, 0x45, 0xaf, 0x8e, 0x51,
   0x30, 0xc8, 0x1c, 0x46, 0xa3, 0x5c, 0xe4, 0x11,
   0xe5, 0xfb, 0xc1, 0x19, 0x1a, 0x0a, 0x52, 0xef,
   0xf6, 0x9f, 0x24, 0x45, 0xdf, 0x4f, 0x9b, 0x17,
   0xad, 0x2b, 0x41, 0x7b, 0xe6, 0x6c, 0x37, 0x10]

/-- The published CMAC of the empty message: `bb1d6929 e9593728 7fa37d12 9b756746`. -/
def nist_cmac_0 : List Nat :=
  [0xbb, 0x1d, 0x69, 0x29, 0xe9, 0x59, 0x37, 0x28,
   0x7f, 0xa3, 0x7d, 0x12, 0x9b, 0x75, 0x67, 0x46]

/-- The published CMAC of the 16-byte message:
`070a16b4 6b4d4144 f79bdd9d d04a287c`. -/
def nist_cmac_16 : List Nat :=
  [0x07, 0x0a, 0x16, 0xb4, 0x6b, 0x4d, 0x41, 0x44,
   0xf7, 0x9b, 0xdd, 0x9d, 0xd0, 0x4a, 0x28, 0x7c]

/-- The published CMAC of the 20-byte message:
`7d85449e a6ea19c8 23a7bf78 837dfade`. -/
def nist_cmac_20 : List Nat :=
  [0x7d, 0x85, 0x44, 0x9e, 0xa6, 0xea, 0x19, 0xc8,
   0x23, 0xa7, 0xbf, 0x78, 0x83, 0x7d, 0xfa, 0xde]

/-- The published CMAC of the 64-byte message:
`51f0bebf 7e3b9d92 fc497417 79363cfe`. -/
def nist_cmac_64 : List Nat :=
  [0x51, 0xf0, 0xbe, 0xbf, 0x7e, 0x3b, 0x9d, 0x92,
   0xfc, 0x49, 0x74, 0x17, 0x79, 0x36, 0x3c, 0xfe]

/-- A caller memory holding the example key at address 0 and the example message at
address 16. -/
def nist_memory : Memory := fun a => (nist_key ++ nist_message).getD a 0

/-- A backend for the examples: a random source that delivers at most 8 bytes per
call. -/
def example_backend : crypto_backend :=
  { chunk_limit := 8, chunk_limit_pos := by decide, random_byte := fun i => 7 * i + 1,
    ec_public_key := [], ec_dhkey := fun _ => [] }

/-! ## Part 3: properties -/

/-! ### The declarations of `btstack_crypto.h` -/

/-- C6, as stated, fails: `btstack_crypto_operation_t` is an integer type, and its
value 6 is none of the six enumerators, so not every value of the type is one of the
six. -/
theorem operation_value_six_not_enumerator :
    ¬ ∀ op : btstack_crypto_operation_t,
        op = BTSTACK_CRYPTO_RANDOM ∨ op = BTSTACK_CRYPTO_AES128 ∨
        op = BTSTACK_CRYPTO_CMAC_GENERATOR ∨ op = BTSTACK_CRYPTO_CMAC_MESSAGE ∨
        op = BTSTACK_CRYPTO_EC_P192_GENERATE_KEY ∨
        op = BTSTACK_CRYPTO_EC_P192_CALCULATE_DHKEY := by
  intro h
  have h6 := h 6
  revert h6
  decide

/-- C6, amended: the operation kind has exactly six enumerators, pairwise distinct, with
the numeric codes 0, 1, 2, 3, 4, 5 in declaration order (Random, AES128, CMAC over
generator, CMAC over message, EC generate key, EC calculate DH key); a value of
`btstack_crypto_operation_t` is one of the six exactly when its code is below 6. -/
theorem operation_six_enumerators :
    btstack_crypto_operations
      = [BTSTACK_CRYPTO_RANDOM, BTSTACK_CRYPTO_AES128, BTSTACK_CRYPTO_CMAC_GENERATOR,
         BTSTACK_CRYPTO_CMAC_MESSAGE, BTSTACK_CRYPTO_EC_P192_GENERATE_KEY,
         BTSTACK_CRYPTO_EC_P192_CALCULATE_DHKEY] ∧
    btstack_crypto_operations.length = 6 ∧
    btstack_crypto_operations.map btstack_crypto_operation_t.code = [0, 1, 2, 3, 4, 5] ∧
    btstack_crypto_operations.Nodup ∧
    (∀ op1 op2 : btstack_crypto_operation_t,
      btstack_crypto_operation_t.code op1 = btstack_crypto_operation_t.code op2 →
      op1 = op2) ∧
    (∀ op : btstack_crypto_operation_t,
      op ∈ btstack_crypto_operations ↔ btstack_crypto_operation_t.code op < 6) := by
  refine ⟨rfl, rfl, rfl, by decide, ?_, ?_⟩
  · intro op1 op2 h
    exact Fin.ext h
  · intro op
    obtain ⟨v, hv⟩ := op
    simp only [btstack_crypto_operations, BTSTACK_CRYPTO_RANDOM, BTSTACK_CRYPTO_AES128,
      BTSTACK_CRYPTO_CMAC_GENERATOR, BTSTACK_CRYPTO_CMAC_MESSAGE,
      BTSTACK_CRYPTO_EC_P192_GENERATE_KEY, BTSTACK_CRYPTO_EC_P192_CALCULATE_DHKEY,
      btstack_crypto_operation_t.code, List.mem_cons, List.mem_singleton,
      List.not_mem_nil, or_false, Fin.ext_iff]
    constructor
    · intro h
      rcases h with h | h | h | h | h | h <;> (rw [h]; decide)
    · intro h
      interval_cases v <;> decide

/-- C7: every request record of every kind has the common header (completion target
and operation kind) as its first component, followed by its operation-specific fields:
buffer and size for Random; key, plaintext and ciphertext for AES128; key, size, one
message source (a byte accessor or a contiguous message) and hash for CMAC; public_key
and dhkey for the EC operations. -/
theorem request_records_header_and_fields :
    (∀ h : btstack_crypto_t, ∃ completion operation,
      h = btstack_crypto_t.mk completion operation) ∧
    (∀ r : btstack_crypto_random_t, ∃ buffer size,
      r = btstack_crypto_random_t.mk (crypto_request.header (.random r)) buffer size) ∧
    (∀ r : btstack_crypto_aes128_t, ∃ key plaintext ciphertext,
      r = btstack_crypto_aes128_t.mk (crypto_request.header (.aes128 r))
        key plaintext ciphertext) ∧
    (∀ r : btstack_crypto_aes128_cmac_t, ∃ key size source hash,
      r = btstack_crypto_aes128_cmac_t.mk (crypto_request.header (.cmac r))
        key size source hash ∧
      ((∃ f, source = cmac_message_source.get_byte_callback f) ∨
       (∃ p, source = cmac_message_source.message p))) ∧
    (∀ r : btstack_crypto_ec_p192_t, ∃ public_key dhkey,
      r = btstack_crypto_ec_p192_t.mk (crypto_request.header (.ec_p192 r))
        public_key dhkey) := by
  refine ⟨?_, ?_, ?_, ?_, ?_⟩
  · intro h
    exact ⟨h.context_callback, h.operation, rfl⟩
  · intro r
    exact ⟨r.buffer, r.size, rfl⟩
  · intro r
    exact ⟨r.key, r.plaintext, r.ciphertext, rfl⟩
  · intro r
    refine ⟨r.key, r.size, r.source, r.hash, rfl, ?_⟩
    cases r.source with
    | get_byte_callback f => exact Or.inl ⟨f, rfl⟩
    | message p => exact Or.inr ⟨p, rfl⟩
  · intro r
    exact ⟨r.public_key, r.dhkey, rfl⟩

/-- C8, as stated, fails: the message length of a CMAC request is a `uint16_t`, so no
CMAC request has message length 65536, and no `uint16_t` position is 65536. -/
theorem cmac_length_65536_excluded :
    ¬ (∀ n : Nat,
        (∃ r : btstack_crypto_aes128_cmac_t, r.size.val = n) ∧
        (∀ pos, pos < n → ∃ p : uint16_t, p.val = pos)) := by
  intro h
  obtain ⟨r, hr⟩ := (h 65536).1
  have := r.size.isLt
  omega

/-- C8, amended: for every message length `n` up to 65535, the range of `uint16_t`,
there is a CMAC request record of the message variant and one of the generator variant
(with any header, key, message source and hash) whose message length is `n`, and
every position `0..n-1` is a `uint16_t` the byte accessor can be asked for. -/
theorem cmac_length_up_to_uint16 (n : Nat) (hn : n ≤ 65535) :
    (∀ (h : btstack_crypto_t) (key message hash : pointer),
      ∃ r : btstack_crypto_aes128_cmac_t,
        r.btstack_crypto = h ∧ r.key = key ∧ r.size.val = n ∧
        r.source = cmac_message_source.message message ∧ r.hash = hash) ∧
    (∀ (h : btstack_crypto_t) (key hash : pointer) (f : uint16_t → uint8_t),
      ∃ r : btstack_crypto_aes128_cmac_t,
        r.btstack_crypto = h ∧ r.key = key ∧ r.size.val = n ∧
        r.source = cmac_message_source.get_byte_callback f ∧ r.hash = hash ∧
        ∀ pos, pos < n → ∃ p : uint16_t, p.val = pos ∧ p.val < r.size.val) := by
  have hlt : n < 65536 := by omega
  refine ⟨?_, ?_⟩
  · intro h key message hash
    exact ⟨⟨h, key, ⟨n, hlt⟩, .message message, hash⟩, rfl, rfl, rfl, rfl, rfl⟩
  · intro h key hash f
    refine ⟨⟨h, key, ⟨n, hlt⟩, .get_byte_callback f, hash⟩, rfl, rfl, rfl, rfl, rfl, ?_⟩
    intro pos hpos
    exact ⟨⟨pos, by omega⟩, rfl, hpos⟩

/-- The amended C8 at the largest length, 65535. -/
theorem cmac_length_up_to_uint16_witness :
    (65535 ≤ 65535) ∧
    (∀ (h : btstack_crypto_t) (key message hash : pointer),
      ∃ r : btstack_crypto_aes128_cmac_t,
        r.btstack_crypto = h ∧ r.key = key ∧ r.size.val = 65535 ∧
        r.source = cmac_message_source.message message ∧ r.hash = hash) :=
  ⟨by decide, (cmac_length_up_to_uint16 65535 (by decide)).1⟩

/-- C9: no operation of the interface has a failure channel: each of the six submit
operations returns `void`, and the completion callback each one takes is a
`void (*)(void *)`, called with only the caller's context argument, the `void *` that
is the last parameter. -/
theorem submit_operations_no_failure_channel :
    ∀ op : submit_operation,
      op.prototype.returns = c_type.void ∧
      op.prototype.completion = [c_type.fn_ptr .void (.ptr .void), c_type.ptr .void] := by
  intro op
  cases op <;> exact ⟨rfl, rfl⟩

/-- C10, as stated, fails: a Random request record has no attribute beyond its header,
its output buffer and its requested size, so it holds no sub-chunk offset: no two
Random requests agree on those three and differ otherwise. -/
theorem random_record_holds_no_offset :
    ¬ ∃ r1 r2 : btstack_crypto_random_t,
        r1.btstack_crypto = r2.btstack_crypto ∧ r1.buffer = r2.buffer ∧
        r1.size = r2.size ∧ r1 ≠ r2 := by
  rintro ⟨⟨h1, b1, s1⟩, ⟨h2, b2, s2⟩, hh, hb, hs, hne⟩
  simp only at hh hb hs
  subst hh hb hs
  exact hne rfl

/-- C10, amended: a request record carries no internal progress state: a Random record
is determined by header, buffer and size, a CMAC record by header, key, size, message
source and hash, and an EC record by header, public_key and dhkey. -/
theorem request_records_carry_no_progress :
    (∀ r1 r2 : btstack_crypto_random_t,
      r1.btstack_crypto = r2.btstack_crypto → r1.buffer = r2.buffer →
      r1.size = r2.size → r1 = r2) ∧
    (∀ r1 r2 : btstack_crypto_aes128_cmac_t,
      r1.btstack_crypto = r2.btstack_crypto → r1.key = r2.key → r1.size = r2.size →
      r1.source = r2.source → r1.hash = r2.hash → r1 = r2) ∧
    (∀ r1 r2 : btstack_crypto_ec_p192_t,
      r1.btstack_crypto = r2.btstack_crypto → r1.public_key = r2.public_key →
      r1.dhkey = r2.dhkey → r1 = r2) := by
  refine ⟨?_, ?_, ?_⟩
  · rintro ⟨h1, b1, s1⟩ ⟨h2, b2, s2⟩ hh hb hs
    simp only at hh hb hs
    subst hh hb hs
    rfl
  · rintro ⟨h1, k1, s1, m1, o1⟩ ⟨h2, k2, s2, m2, o2⟩ hh hk hs hm ho
    simp only at hh hk hs hm ho
    subst hh hk hs hm ho
    rfl
  · rintro ⟨h1, p1, d1⟩ ⟨h2, p2, d2⟩ hh hp hd
    simp only at hh hp hd
    subst hh hp hd
    rfl

/-! ### Scheduler: helper lemmas -/

theorem ceil_div_last (c x : Nat) (hx : 0 < x) (hxc : x ≤ c) :
    (x + c - 1) / c = 1 := by
  apply Nat.div_eq_of_lt_le
  · omega
  · simp only [Nat.succ_mul]
    omega

theorem ceil_div_step (c x : Nat) (hc : 0 < c) (hx : c < x) :
    (x - c + c - 1) / c + 1 = (x + c - 1) / c := by
  have h : x + c - 1 = (x - c + c - 1) + c := by omega
  rw [h, Nat.add_div_right _ hc]

theorem ceil_div_pos (c x : Nat) (hc : 0 < c) (hx : 0 < x) : 0 < (x + c - 1) / c := by
  apply Nat.div_pos
  · omega
  · exact hc

theorem random_bytes_length (b : crypto_backend) (start n : Nat) :
    (random_bytes b start n).length = n := by
  simp [random_bytes]

theorem begin_frame (b : crypto_backend) (e : crypto_engine) (r : crypto_request) :
    (crypto_begin b e r).1.completed = e.completed ∧
    (crypto_begin b e r).1.queue = e.queue ∧
    (crypto_begin b e r).1.memory = e.memory := by
  cases r with
  | random r =>
    by_cases h : r.size.val = 0 <;> simp [crypto_begin, h, random_dispatch]
  | aes128 r => simp [crypto_begin, aes_dispatch]
  | cmac r => simp [crypto_begin, aes_dispatch]
  | ec_p192 r =>
    by_cases h : r.btstack_crypto.operation = BTSTACK_CRYPTO_EC_P192_GENERATE_KEY <;>
      simp [crypto_begin, h, ec_dispatch]

theorem begin_some (b : crypto_backend) (e : crypto_engine) (r : crypto_request)
    (e1 : crypto_engine) (p : crypto_progress) (h : crypto_begin b e r = (e1, some p)) :
    (∀ q a, active_ok b { e1 with queue := q, active := a } ⟨r, p⟩) ∧
    entry_ticks b ⟨r, p⟩ = entry_ticks b ⟨r, .initial⟩ ∧ 0 < entry_ticks b ⟨r, p⟩ ∧
    p ≠ .initial := by
  cases r with
  | random r =>
    by_cases hs : r.size.val = 0
    · simp [crypto_begin, hs] at h
    · simp only [crypto_begin, hs, if_false, Prod.mk.injEq, Option.some.injEq] at h
      obtain ⟨h1, h2⟩ := h
      subst h1 h2
      refine ⟨?_, ?_, ?_, ?_⟩
      · intro q a
        simp only [active_ok, random_dispatch, random_bytes_length]
        omega
      · simp [entry_ticks]
      · simp only [entry_ticks]
        exact ceil_div_pos _ _ b.chunk_limit_pos (by omega)
      · simp
  | aes128 r =>
    simp only [crypto_begin, Prod.mk.injEq, Option.some.injEq] at h
    obtain ⟨h1, h2⟩ := h
    subst h1 h2
    simp [active_ok, entry_ticks]
  | cmac r =>
    simp only [crypto_begin, Prod.mk.injEq, Option.some.injEq] at h
    obtain ⟨h1, h2⟩ := h
    subst h1 h2
    simp [active_ok, entry_ticks]
  | ec_p192 r =>
    by_cases ho : r.btstack_crypto.operation = BTSTACK_CRYPTO_EC_P192_GENERATE_KEY
    · simp only [crypto_begin, ho, if_true, Prod.mk.injEq, Option.some.injEq] at h
      obtain ⟨h1, h2⟩ := h
      subst h1 h2
      simp [active_ok, entry_ticks]
    · simp only [crypto_begin, ho, if_false, Prod.mk.injEq, Option.some.injEq] at h
      obtain ⟨h1, h2⟩ := h
      subst h1 h2
      simp [active_ok, entry_ticks]

theorem begin_none (b : crypto_backend) (e : crypto_engine) (r : crypto_request)
    (e1 : crypto_engine) (h : crypto_begin b e r = (e1, none)) :
    entry_ticks b ⟨r, .initial⟩ = 0 ∧ e1 = e := by
  cases r with
  | random r =>
    by_cases hs : r.size.val = 0
    · simp only [crypto_begin, hs, if_true, Prod.mk.injEq] at h
      refine ⟨?_, h.1.symm⟩
      simp only [entry_ticks, hs, Nat.zero_add]
      apply Nat.div_eq_of_lt
      have := b.chunk_limit_pos
      omega
    · simp [crypto_begin, hs] at h
  | aes128 r => simp [crypto_begin] at h
  | cmac r => simp [crypto_begin] at h
  | ec_p192 r =>
    by_cases ho : r.btstack_crypto.operation = BTSTACK_CRYPTO_EC_P192_GENERATE_KEY <;>
      simp [crypto_begin, ho] at h

theorem promote_conservation (b : crypto_backend) (q : List crypto_entry) :
    ∀ e : crypto_engine,
      (crypto_promote b q e).completed
          ++ (in_flight (crypto_promote b q e)).map crypto_entry.request
        = e.completed ++ q.map crypto_entry.request := by
  induction q with
  | nil => intro e; simp [crypto_promote, in_flight]
  | cons ent rest ih =>
    intro e
    have hf := begin_frame b e ent.request
    rcases h : crypto_begin b e ent.request with ⟨e1, _ | p⟩
    · rw [h] at hf
      simp only [crypto_promote, h]
      rw [ih]
      simp only at hf
      simp [crypto_complete, hf.1]
    · rw [h] at hf
      simp only [crypto_promote, h]
      simp only at hf
      simp [in_flight, hf.1]

theorem promote_inv (b : crypto_backend) (q : List crypto_entry)
    (hq : ∀ ent ∈ q, ent.progress = .initial) :
    ∀ e : crypto_engine,
      crypto_inv b (crypto_promote b q e) ∧
      engine_ticks b (crypto_promote b q e) = (q.map (entry_ticks b)).sum := by
  induction q with
  | nil =>
    intro e
    refine ⟨⟨?_, ?_, ?_⟩, ?_⟩ <;> simp [crypto_promote, engine_ticks, in_flight]
  | cons ent rest ih =>
    intro e
    have hrest : ∀ x ∈ rest, x.progress = .initial :=
      fun x hx => hq x (List.mem_cons_of_mem _ hx)
    have hent : ent = ⟨ent.request, .initial⟩ := by
      have := hq ent (List.mem_cons_self _ _)
      cases ent
      simp_all
    rcases h : crypto_begin b e ent.request with ⟨e1, _ | p⟩
    · have hn := begin_none b e ent.request e1 h
      simp only [crypto_promote, h]
      refine ⟨(ih hrest _).1, ?_⟩
      rw [(ih hrest _).2, List.map_cons, List.sum_cons]
      rw [hent, hn.1]
      simp
    · have hs := begin_some b e ent.request e1 p h
      simp only [crypto_promote, h]
      refine ⟨⟨?_, ?_, ?_⟩, ?_⟩
      · exact hrest
      · intro x hx
        simp only [Option.some.injEq] at hx
        subst hx
        exact hs.1 _ _
      · intro hx
        simp at hx
      · simp only [engine_ticks, in_flight, Option.toList, List.singleton_append,
          List.map_cons, List.sum_cons]
        rw [hs.2.1]
        conv => rhs; rw [hent]

theorem step_frame (b : crypto_backend) (e : crypto_engine) (ent : crypto_entry) :
    (crypto_step b e ent).1.queue = e.queue ∧
    (crypto_step b e ent).1.completed = e.completed := by
  obtain ⟨r, p⟩ := ent
  cases r <;> cases p <;> simp only [crypto_step] <;>
    first
    | (split <;> simp [random_dispatch, aes_dispatch])
    | simp [random_dispatch, aes_dispatch]

theorem step_some (b : crypto_backend) (e : crypto_engine) (ent : crypto_entry)
    (hok : active_ok b e ent) (e1 : crypto_engine) (p : crypto_progress)
    (h : crypto_step b e ent = (e1, some p)) :
    (∀ a, active_ok b { e1 with active := a } ⟨ent.request, p⟩) ∧
    entry_ticks b ⟨ent.request, p⟩ + 1 = entry_ticks b ent := by
  obtain ⟨r, p0⟩ := ent
  cases r with
  | random r =>
    cases p0 <;> simp only [active_ok] at hok
    rename_i d
    by_cases hd : d + e.pending.length = r.size.val
    · simp [crypto_step, hd] at h
    · simp only [crypto_step, hd, if_false, Prod.mk.injEq, Option.some.injEq] at h
      obtain ⟨h1, h2⟩ := h
      subst h1 h2
      have hc := b.chunk_limit_pos
      have hlen : e.pending.length = b.chunk_limit := by omega
      refine ⟨?_, ?_⟩
      · intro a
        simp only [active_ok, random_dispatch, random_bytes_length, and_true]
        omega
      · simp only [entry_ticks, hlen]
        have := ceil_div_step b.chunk_limit (r.size.val - d) hc (by omega)
        rw [← this]
        congr 2
        omega
  | aes128 r =>
    cases p0 <;> simp only [active_ok] at hok
    simp [crypto_step] at h
  | cmac r =>
    cases p0 <;> simp only [active_ok] at hok
    · simp only [crypto_step, Prod.mk.injEq, Option.some.injEq] at h
      obtain ⟨h1, h2⟩ := h
      subst h1 h2
      refine ⟨?_, ?_⟩
      · intro a
        simp only [active_ok, cmac_block_count]
        split <;> omega
      · simp only [entry_ticks]
        omega
    · rename_i i k
      by_cases hi : i + 1 = cmac_block_count r.size.val
      · simp [crypto_step, hi] at h
      · simp only [crypto_step, hi, if_false, Prod.mk.injEq, Option.some.injEq] at h
        obtain ⟨h1, h2⟩ := h
        subst h1 h2
        refine ⟨?_, ?_⟩
        · intro a
          simp only [active_ok]
          omega
        · simp only [entry_ticks]
          omega
  | ec_p192 r =>
    cases p0 <;> simp only [active_ok] at hok
    by_cases ho : r.btstack_crypto.operation = BTSTACK_CRYPTO_EC_P192_GENERATE_KEY <;>
      simp [crypto_step, ho] at h

theorem step_none (b : crypto_backend) (e : crypto_engine) (ent : crypto_entry)
    (hok : active_ok b e ent) (e1 : crypto_engine)
    (h : crypto_step b e ent = (e1, none)) :
    entry_ticks b ent = 1 := by
  obtain ⟨r, p0⟩ := ent
  cases r with
  | random r =>
    cases p0 <;> simp only [active_ok] at hok
    rename_i d
    by_cases hd : d + e.pending.length = r.size.val
    · simp only [entry_ticks]
      apply ceil_div_last
      · omega
      · have := Nat.min_le_right (r.size.val - d) b.chunk_limit
        omega
    · simp [crypto_step, hd] at h
  | aes128 r => simp [entry_ticks]
  | cmac r =>
    cases p0 <;> simp only [active_ok] at hok
    · simp [crypto_step] at h
    · rename_i i k
      by_cases hi : i + 1 = cmac_block_count r.size.val
      · simp only [entry_ticks]
        omega
      · simp [crypto_step, hi] at h
  | ec_p192 r => simp [entry_ticks]

theorem process_idle (b : crypto_backend) (e : crypto_engine) (h : e.active = none) :
    crypto_process b e = e := by
  simp [crypto_process, h]

theorem process_conservation (b : crypto_backend) (e : crypto_engine) :
    (crypto_process b e).completed
        ++ (in_flight (crypto_process b e)).map crypto_entry.request
      = e.completed ++ (in_flight e).map crypto_entry.request := by
  cases ha : e.active with
  | none => rw [process_idle b e ha]
  | some ent =>
    have hf := step_frame b e ent
    rcases h : crypto_step b e ent with ⟨e1, _ | p⟩
    · rw [h] at hf
      simp only at hf
      simp only [crypto_process, ha, h]
      rw [promote_conservation]
      simp [crypto_complete, in_flight, ha, hf.1, hf.2]
    · rw [h] at hf
      simp only at hf
      simp only [crypto_process, ha, h]
      simp [in_flight, ha, hf.1, hf.2]

theorem submit_conservation (b : crypto_backend) (e : crypto_engine) (r : crypto_request)
    (hidle : e.active = none → e.queue = []) :
    (crypto_submit b e r).completed
        ++ (in_flight (crypto_submit b e r)).map crypto_entry.request
      = e.completed ++ (in_flight e).map crypto_entry.request ++ [r] := by
  cases ha : e.active with
  | none =>
    simp only [crypto_submit, ha]
    rw [promote_conservation]
    simp [in_flight, ha, hidle ha]
  | some ent =>
    simp [crypto_submit, ha, in_flight]

theorem init_inv (b : crypto_backend) (m : Memory) :
    crypto_inv b (btstack_crypto_init m) := by
  refine ⟨?_, ?_, ?_⟩ <;> simp [btstack_crypto_init]

theorem submit_inv (b : crypto_backend) (e : crypto_engine) (r : crypto_request)
    (hinv : crypto_inv b e) : crypto_inv b (crypto_submit b e r) := by
  cases ha : e.active with
  | none =>
    simp only [crypto_submit, ha]
    apply (promote_inv b _ _ e).1
    intro x hx
    rw [hinv.idle_empty ha] at hx
    simp at hx
    rw [hx]
  | some ent =>
    simp only [crypto_submit, ha]
    refine ⟨?_, ?_, ?_⟩
    · intro x hx
      simp only [List.mem_append, List.mem_singleton] at hx
      rcases hx with hx | hx
      · exact hinv.queue_initial x hx
      · rw [hx]
    · intro x hx
      have := hinv.active_state x (by rw [ha]; exact hx)
      revert this
      obtain ⟨xr, xp⟩ := x
      cases xr <;> cases xp <;> simp [active_ok]
    · simp [ha]

theorem process_inv (b : crypto_backend) (e : crypto_engine) (hinv : crypto_inv b e) :
    crypto_inv b (crypto_process b e) := by
  cases ha : e.active with
  | none => rw [process_idle b e ha]; exact hinv
  | some ent =>
    have hf := step_frame b e ent
    have hok := hinv.active_state ent ha
    rcases h : crypto_step b e ent with ⟨e1, _ | p⟩
    · rw [h] at hf
      simp only at hf
      simp only [crypto_process, ha, h]
      apply (promote_inv b _ _ _).1
      rw [hf.1]
      exact hinv.queue_initial
    · rw [h] at hf
      simp only at hf
      have hs := step_some b e ent hok e1 p h
      simp only [crypto_process, ha, h]
      refine ⟨?_, ?_, ?_⟩
      · simp only [hf.1]
        exact hinv.queue_initial
      · intro x hx
        simp only [Option.some.injEq] at hx
        subst hx
        exact hs.1 _
      · intro hx
        simp at hx

theorem process_ticks (b : crypto_backend) (e : crypto_engine) (hinv : crypto_inv b e)
    (ent : crypto_entry) (ha : e.active = some ent) :
    engine_ticks b (crypto_process b e) + 1 = engine_ticks b e := by
  have hf := step_frame b e ent
  have hok := hinv.active_state ent ha
  rcases h : crypto_step b e ent with ⟨e1, _ | p⟩
  · rw [h] at hf
    simp only at hf
    have hn := step_none b e ent hok e1 h
    simp only [crypto_process, ha, h]
    rw [(promote_inv b _ (by rw [hf.1]; exact hinv.queue_initial) _).2]
    simp [engine_ticks, in_flight, ha, hn, hf.1]
    omega
  · rw [h] at hf
    simp only at hf
    have hs := step_some b e ent hok e1 p h
    simp only [crypto_process, ha, h]
    simp only [engine_ticks, in_flight, Option.toList, List.singleton_append, ha,
      List.map_cons, List.sum_cons, hf.1]
    omega

theorem run_append (b : crypto_backend) (e : crypto_engine) (t1 t2 : List crypto_event) :
    crypto_run b e (t1 ++ t2) = crypto_run b (crypto_run b e t1) t2 := by
  simp [crypto_run, List.foldl_append]

theorem submitted_append (t1 t2 : List crypto_event) :
    submitted (t1 ++ t2) = submitted t1 ++ submitted t2 := by
  induction t1 with
  | nil => simp [submitted]
  | cons ev t ih =>
    cases ev <;> simp [submitted, ih]

theorem run_inv (b : crypto_backend) (t : List crypto_event) :
    ∀ e : crypto_engine, crypto_inv b e → crypto_inv b (crypto_run b e t) := by
  induction t with
  | nil => intro e h; exact h
  | cons ev t ih =>
    intro e h
    simp only [crypto_run, List.foldl_cons]
    apply ih
    cases ev with
    | submit r => exact submit_inv b e r h
    | process => exact process_inv b e h

theorem run_conservation (b : crypto_backend) (t : List crypto_event) :
    ∀ e : crypto_engine, crypto_inv b e →
      (crypto_run b e t).completed
          ++ (in_flight (crypto_run b e t)).map crypto_entry.request
        = e.completed ++ (in_flight e).map crypto_entry.request ++ submitted t := by
  induction t with
  | nil => intro e _; simp [crypto_run, submitted]
  | cons ev t ih =>
    intro e h
    cases ev with
    | submit r =>
      have h1 := ih (crypto_submit b e r) (submit_inv b e r h)
      simp only [crypto_run, List.foldl_cons, crypto_apply] at h1 ⊢
      rw [h1, submit_conservation b e r h.idle_empty]
      simp [submitted]
    | process =>
      have h1 := ih (crypto_process b e) (process_inv b e h)
      simp only [crypto_run, List.foldl_cons, crypto_apply] at h1 ⊢
      rw [h1, process_conservation b e]
      simp [submitted]

theorem process_n_add (b : crypto_backend) (n k : Nat) :
    ∀ e : crypto_engine,
      crypto_process_n b (n + k) e = crypto_process_n b k (crypto_process_n b n e) := by
  induction n with
  | zero => intro e; simp [crypto_process_n]
  | succ n ih =>
    intro e
    rw [Nat.succ_add]
    simp only [crypto_process_n]
    exact ih _

theorem process_n_inv (b : crypto_backend) (n : Nat) :
    ∀ e : crypto_engine, crypto_inv b e → crypto_inv b (crypto_process_n b n e) := by
  induction n with
  | zero => intro e h; exact h
  | succ n ih => intro e h; exact ih _ (process_inv b e h)

theorem process_n_conservation (b : crypto_backend) (n : Nat) :
    ∀ e : crypto_engine,
      (crypto_process_n b n e).completed
          ++ (in_flight (crypto_process_n b n e)).map crypto_entry.request
        = e.completed ++ (in_flight e).map crypto_entry.request := by
  induction n with
  | zero => intro e; rfl
  | succ n ih =>
    intro e
    simp only [crypto_process_n]
    rw [ih, process_conservation]

theorem idle_of_ticks_zero (b : crypto_backend) (e : crypto_engine) (hinv : crypto_inv b e)
    (h : engine_ticks b e = 0) : in_flight e = [] := by
  cases ha : e.active with
  | none => simp [in_flight, ha, hinv.idle_empty ha]
  | some ent =>
    have := process_ticks b e hinv ent ha
    omega

theorem process_n_drain (b : crypto_backend) (n : Nat) :
    ∀ e : crypto_engine, crypto_inv b e → engine_ticks b e ≤ n →
      in_flight (crypto_process_n b n e) = [] := by
  induction n with
  | zero =>
    intro e hinv h
    exact idle_of_ticks_zero b e hinv (by omega)
  | succ n ih =>
    intro e hinv h
    simp only [crypto_process_n]
    apply ih _ (process_inv b e hinv)
    cases ha : e.active with
    | none =>
      rw [process_idle b e ha]
      have : engine_ticks b e = 0 := by
        simp [engine_ticks, in_flight, ha, hinv.idle_empty ha]
      omega
    | some ent =>
      have := process_ticks b e hinv ent ha
      omega

/-! ### Scheduler: FIFO order and the single active request -/

/-- C3: for every sequence of events (submits of any requests, interleaved with any
number of `process()` steps) applied to the initialised engine, the completion
notifications fired are a prefix of the submitted requests, in submission order, and
after the remaining `process()` steps they are exactly the submitted requests
`r1..rN`, in that order. -/
theorem fifo_completion_order (b : crypto_backend) (m : Memory) (t : List crypto_event) :
    (crypto_run b (btstack_crypto_init m) t).completed <+: submitted t ∧
    ∀ n, engine_ticks b (crypto_run b (btstack_crypto_init m) t) ≤ n →
      (crypto_process_n b n (crypto_run b (btstack_crypto_init m) t)).completed
        = submitted t := by
  have hinv := run_inv b t _ (init_inv b m)
  have hc := run_conservation b t _ (init_inv b m)
  have h0 : (btstack_crypto_init m).completed
      ++ (in_flight (btstack_crypto_init m)).map crypto_entry.request = [] := by
    simp [btstack_crypto_init, in_flight]
  rw [h0, List.nil_append] at hc
  refine ⟨⟨_, hc⟩, ?_⟩
  intro n hn
  have hd := process_n_drain b n _ hinv hn
  have hp := process_n_conservation b n (crypto_run b (btstack_crypto_init m) t)
  rw [hd, hc] at hp
  simpa using hp

/-- C4: in every engine state reachable from `btstack_crypto_init` by submit and
process steps, at most one of the requests the engine holds has been advanced past its
initial state; every request in the queue is in its initial state; and the requests
the engine holds (the active one, then the queue) are exactly the submitted requests
that have not completed. -/
theorem single_active_invariant (b : crypto_backend) (m : Memory)
    (t : List crypto_event) :
    ((in_flight (crypto_run b (btstack_crypto_init m) t)).filter
      crypto_entry.advanced).length ≤ 1 ∧
    (∀ ent ∈ (crypto_run b (btstack_crypto_init m) t).queue,
      ent.progress = .initial) ∧
    (crypto_run b (btstack_crypto_init m) t).completed
      ++ (in_flight (crypto_run b (btstack_crypto_init m) t)).map crypto_entry.request
      = submitted t := by
  have hinv := run_inv b t _ (init_inv b m)
  have hc := run_conservation b t _ (init_inv b m)
  have h0 : (btstack_crypto_init m).completed
      ++ (in_flight (btstack_crypto_init m)).map crypto_entry.request = [] := by
    simp [btstack_crypto_init, in_flight]
  rw [h0, List.nil_append] at hc
  refine ⟨?_, hinv.queue_initial, hc⟩
  have hq : (crypto_run b (btstack_crypto_init m) t).queue.filter crypto_entry.advanced
      = [] := by
    rw [List.filter_eq_nil_iff]
    intro ent hent
    simp [crypto_entry.advanced, hinv.queue_initial ent hent]
  rw [in_flight, List.filter_append, hq, List.append_nil]
  cases (crypto_run b (btstack_crypto_init m) t).active with
  | none => simp
  | some ent =>
    simp only [Option.toList]
    exact List.length_filter_le _ _

/-! ### Caller memory -/

theorem mem_write_bytes_append (l1 l2 : List Nat) :
    ∀ (m : Memory) (a : Nat),
      mem_write_bytes m a (l1 ++ l2)
        = mem_write_bytes (mem_write_bytes m a l1) (a + l1.length) l2 := by
  induction l1 with
  | nil => intro m a; simp [mem_write_bytes]
  | cons v vs ih =>
    intro m a
    rw [List.cons_append]
    simp only [mem_write_bytes, List.length_cons]
    rw [ih]
    have h : a + 1 + vs.length = a + (vs.length + 1) := by omega
    rw [h]

theorem mem_write_bytes_apply (l : List Nat) :
    ∀ (m : Memory) (a x : Nat),
      mem_write_bytes m a l x
        = if a ≤ x ∧ x < a + l.length then l.getD (x - a) 0 % 256 else m x := by
  induction l with
  | nil =>
    intro m a x
    simp only [mem_write_bytes, List.length_nil, Nat.add_zero]
    rw [if_neg (by omega)]
  | cons v vs ih =>
    intro m a x
    simp only [mem_write_bytes, List.length_cons]
    rw [ih]
    by_cases h1 : a + 1 ≤ x ∧ x < a + 1 + vs.length
    · rw [if_pos h1, if_pos (by omega)]
      have : x - a = (x - (a + 1)) + 1 := by omega
      rw [this, List.getD_cons_succ]
    · rw [if_neg h1]
      by_cases h2 : x = a
      · subst h2
        rw [if_pos (by omega)]
        simp [mem_write]
      · rw [if_neg (by omega)]
        simp [mem_write, h2]

theorem fixed_bytes_length (n : Nat) (l : List Nat) : (fixed_bytes n l).length = n := by
  simp [fixed_bytes]

theorem mem_read_write_fixed (m : Memory) (a : Nat) (n : Nat) (l : List Nat) :
    mem_read_bytes (mem_write_bytes m a (fixed_bytes n l)) a n = fixed_bytes n l := by
  simp only [mem_read_bytes]
  conv => rhs; rw [fixed_bytes]
  apply List.map_congr_left
  intro i hi
  rw [List.mem_range] at hi
  simp only [mem_read]
  rw [mem_write_bytes_apply, if_pos (by rw [fixed_bytes_length]; omega)]
  have h : a + i - a = i := by omega
  rw [h]
  have h2 : (fixed_bytes n l).getD i 0 = l.getD i 0 % 256 := by
    simp only [fixed_bytes]
    rw [List.getD_eq_getElem?_getD, List.getElem?_map, List.getElem?_range hi]
    rfl
  rw [h2]
  omega

/-! ### The run of a single CMAC request -/

theorem submit_cmac_idle (b : crypto_backend) (e : crypto_engine)
    (r : btstack_crypto_aes128_cmac_t) (ha : e.active = none) (hq : e.queue = []) :
    crypto_submit b e (.cmac r) = cmac_wait_subkey e r := by
  simp [crypto_submit, ha, hq, crypto_promote, crypto_begin, aes_dispatch,
    cmac_wait_subkey, cmac_key]

theorem process_cmac_subkey (b : crypto_backend) (e : crypto_engine)
    (r : btstack_crypto_aes128_cmac_t) :
    crypto_process b (cmac_wait_subkey e r) = cmac_wait_block e r 0 := by
  simp [crypto_process, cmac_wait_subkey, crypto_step, aes_dispatch, cmac_wait_block,
    cmac_chain, cmac_key, cmac_request_subkey]

theorem process_cmac_block (b : crypto_backend) (e : crypto_engine)
    (r : btstack_crypto_aes128_cmac_t) (i : Nat)
    (hi : i + 1 ≠ cmac_block_count r.size.val) :
    crypto_process b (cmac_wait_block e r i) = cmac_wait_block e r (i + 1) := by
  simp [crypto_process, cmac_wait_block, crypto_step, aes_dispatch, hi,
    cmac_chain, cmac_key, cmac_request_subkey]
  omega

theorem process_cmac_last (b : crypto_backend) (e : crypto_engine)
    (r : btstack_crypto_aes128_cmac_t) (i : Nat)
    (hi : i + 1 = cmac_block_count r.size.val) :
    crypto_process b (cmac_wait_block e r i) = cmac_done e r := by
  have h1 : cmac_block_count r.size.val - 1 = i := by omega
  simp [crypto_process, cmac_wait_block, crypto_step, hi, crypto_promote,
    crypto_complete, cmac_done, aes_cmac, cmac_key, cmac_request_subkey, h1]
  omega

theorem process_n_cmac_blocks (b : crypto_backend) (e : crypto_engine)
    (r : btstack_crypto_aes128_cmac_t) (i : Nat)
    (hi : i < cmac_block_count r.size.val) :
    crypto_process_n b i (cmac_wait_block e r 0) = cmac_wait_block e r i := by
  induction i with
  | zero => rfl
  | succ i ih =>
    rw [process_n_add b i 1, ih (by omega)]
    simp only [crypto_process_n]
    exact process_cmac_block b e r i (by omega)

theorem cmac_block_count_pos (size : Nat) : 0 < cmac_block_count size := by
  simp only [cmac_block_count]
  split <;> omega

theorem cmac_run_done (b : crypto_backend) (e : crypto_engine)
    (r : btstack_crypto_aes128_cmac_t) (ha : e.active = none) (hq : e.queue = []) :
    crypto_process_n b (cmac_block_count r.size.val + 1) (crypto_submit b e (.cmac r))
      = cmac_done e r := by
  have hpos := cmac_block_count_pos r.size.val
  have hsplit : cmac_block_count r.size.val + 1
      = 1 + ((cmac_block_count r.size.val - 1) + 1) := by omega
  rw [submit_cmac_idle b e r ha hq, hsplit, process_n_add b 1, process_n_add b _ 1]
  simp only [crypto_process_n]
  rw [process_cmac_subkey, process_n_cmac_blocks b e r _ (by omega)]
  exact process_cmac_last b e r _ (by omega)

theorem cmac_run_before (b : crypto_backend) (e : crypto_engine)
    (r : btstack_crypto_aes128_cmac_t) (ha : e.active = none) (hq : e.queue = [])
    (n : Nat) (hn : n ≤ cmac_block_count r.size.val) :
    (crypto_process_n b n (crypto_submit b e (.cmac r))).completed = e.completed := by
  rw [submit_cmac_idle b e r ha hq]
  cases n with
  | zero => rfl
  | succ n =>
    rw [Nat.add_comm, process_n_add b 1 n]
    simp only [crypto_process_n]
    rw [process_cmac_subkey, process_n_cmac_blocks b e r n (by omega)]
    rfl

/-! ### CMAC reads its message only below its length -/

theorem cmac_block_count_eq (size : Nat) :
    (size = 0 ∧ cmac_block_count size = 1) ∨
    (size ≠ 0 ∧ cmac_block_count size = (size + 15) / 16) := by
  by_cases h : size = 0 <;> simp [cmac_block_count, h]

theorem cmac_last_block_full_iff (size : Nat) :
    cmac_last_block_full size = true ↔ size ≠ 0 ∧ size % 16 = 0 := by
  simp [cmac_last_block_full]

theorem cmac_block_congr (read1 read2 : Nat → Nat) (size : Nat) (k : List Nat) (i : Nat)
    (h : ∀ pos, pos < size → read1 pos = read2 pos)
    (hi : i < cmac_block_count size) :
    cmac_block read1 size k i = cmac_block read2 size k i := by
  have hB : (List.range 16).map (fun j =>
        if 16 * i + j < size then read1 (16 * i + j)
        else if 16 * i + j = size then 0x80 else 0)
      = (List.range 16).map (fun j =>
        if 16 * i + j < size then read2 (16 * i + j)
        else if 16 * i + j = size then 0x80 else 0) := by
    apply List.map_congr_left
    intro j _
    by_cases hp : 16 * i + j < size
    · simp only [hp, if_true]
      exact h _ hp
    · simp only [hp, if_false]
  have hcount := cmac_block_count_eq size
  unfold cmac_block
  by_cases hlast : i + 1 = cmac_block_count size
  · rw [if_pos hlast, if_pos hlast]
    by_cases hfull : cmac_last_block_full size = true
    · rw [if_pos hfull, if_pos hfull]
      have hf := (cmac_last_block_full_iff size).1 hfull
      have hA : (List.range 16).map (fun j => read1 (16 * i + j))
          = (List.range 16).map (fun j => read2 (16 * i + j)) := by
        apply List.map_congr_left
        intro j hj
        rw [List.mem_range] at hj
        apply h
        omega
      rw [hA]
    · rw [if_neg hfull, if_neg hfull, hB]
  · rw [if_neg hlast, if_neg hlast]
    apply List.map_congr_left
    intro j hj
    rw [List.mem_range] at hj
    apply h
    omega

theorem cmac_chain_congr (key : List Nat) (read1 read2 : Nat → Nat) (size : Nat)
    (k : List Nat) (h : ∀ pos, pos < size → read1 pos = read2 pos) (i : Nat)
    (hi : i < cmac_block_count size) :
    cmac_chain key read1 size k i = cmac_chain key read2 size k i := by
  induction i with
  | zero =>
    simp only [cmac_chain]
    rw [cmac_block_congr read1 read2 size k 0 h hi]
  | succ i ih =>
    simp only [cmac_chain]
    rw [ih (by omega), cmac_block_congr read1 read2 size k (i + 1) h hi]

theorem aes_cmac_congr (key : List Nat) (read1 read2 : Nat → Nat) (size : Nat)
    (h : ∀ pos, pos < size → read1 pos = read2 pos) :
    aes_cmac key read1 size = aes_cmac key read2 size := by
  simp only [aes_cmac]
  apply cmac_chain_congr key read1 read2 size _ h
  have := cmac_block_count_pos size
  omega

/-! ### CMAC: the hash of a request, message and generator variants -/

theorem cmac_get_byte_generator (m : Memory) (f : uint16_t → uint8_t) (pos : Nat)
    (hpos : pos < 65536) :
    cmac_get_byte m (.get_byte_callback f) pos = (f ⟨pos, hpos⟩).val := by
  simp only [cmac_get_byte]
  congr 2
  apply Fin.ext
  simp only [Fin.ofNat]
  omega

theorem cmac_message_result (b : crypto_backend) (e : crypto_engine)
    (ha : e.active = none) (hq : e.queue = [])
    (key : pointer) (len : uint16_t) (message hash callback callback_arg : pointer) :
    (crypto_process_n b (cmac_block_count len.val + 1)
      (btstack_crypto_aes128_cmac_message b e key len message hash callback
        callback_arg)).completed
      = e.completed
        ++ [.cmac (cmac_message_request key len message hash callback callback_arg)] ∧
    (crypto_process_n b (cmac_block_count len.val + 1)
      (btstack_crypto_aes128_cmac_message b e key len message hash callback
        callback_arg)).memory
      = mem_write_bytes e.memory hash
          (fixed_bytes 16 (aes_cmac (mem_read_bytes e.memory key 16)
            (fun pos => mem_read e.memory (message + pos)) len.val)) := by
  have h := cmac_run_done b e
    (cmac_message_request key len message hash callback callback_arg) ha hq
  simp only [cmac_message_request] at h
  simp only [btstack_crypto_aes128_cmac_message, cmac_message_request]
  rw [h]
  exact ⟨rfl, rfl⟩

theorem cmac_generator_result (b : crypto_backend) (e : crypto_engine)
    (ha : e.active = none) (hq : e.queue = [])
    (key : pointer) (size : uint16_t) (get_byte_callback : uint16_t → uint8_t)
    (hash callback callback_arg : pointer) :
    (crypto_process_n b (cmac_block_count size.val + 1)
      (btstack_crypto_aes128_cmac_generator b e key size get_byte_callback hash callback
        callback_arg)).completed
      = e.completed ++ [.cmac (cmac_generator_request key size get_byte_callback hash
          callback callback_arg)] ∧
    (crypto_process_n b (cmac_block_count size.val + 1)
      (btstack_crypto_aes128_cmac_generator b e key size get_byte_callback hash callback
        callback_arg)).memory
      = mem_write_bytes e.memory hash
          (fixed_bytes 16 (aes_cmac (mem_read_bytes e.memory key 16)
            (cmac_get_byte e.memory (.get_byte_callback get_byte_callback))
            size.val)) := by
  have h := cmac_run_done b e
    (cmac_generator_request key size get_byte_callback hash callback callback_arg) ha hq
  simp only [cmac_generator_request] at h
  simp only [btstack_crypto_aes128_cmac_generator, cmac_generator_request]
  rw [h]
  exact ⟨rfl, rfl⟩

/-- C2: for every key and message in caller memory, of any length `n`, and every byte
accessor `get_byte` with `get_byte(pos) = msg[pos]` for every `pos < n`: submitted to
an idle engine, the CMAC-over-message request on `(key, n, msg)` and the
CMAC-over-generator request on `(key, n, get_byte)` both complete after the same
number of `process()` steps, and the hashes they write are equal: both are the AES-CMAC
of the `n` message bytes. -/
theorem cmac_message_generator_same_hash (b : crypto_backend) (e : crypto_engine)
    (ha : e.active = none) (hq : e.queue = [])
    (key : pointer) (n : uint16_t) (message : pointer)
    (get_byte : uint16_t → uint8_t) (hash callback callback_arg : pointer)
    (hget : ∀ pos : uint16_t, pos.val < n.val →
      (get_byte pos).val = mem_read e.memory (message + pos.val)) :
    (crypto_process_n b (cmac_block_count n.val + 1)
      (btstack_crypto_aes128_cmac_message b e key n message hash callback
        callback_arg)).completed
      = e.completed
        ++ [.cmac (cmac_message_request key n message hash callback callback_arg)] ∧
    (crypto_process_n b (cmac_block_count n.val + 1)
      (btstack_crypto_aes128_cmac_generator b e key n get_byte hash callback
        callback_arg)).completed
      = e.completed
        ++ [.cmac (cmac_generator_request key n get_byte hash callback callback_arg)] ∧
    mem_read_bytes (crypto_process_n b (cmac_block_count n.val + 1)
      (btstack_crypto_aes128_cmac_message b e key n message hash callback
        callback_arg)).memory hash 16
      = mem_read_bytes (crypto_process_n b (cmac_block_count n.val + 1)
          (btstack_crypto_aes128_cmac_generator b e key n get_byte hash callback
            callback_arg)).memory hash 16 ∧
    mem_read_bytes (crypto_process_n b (cmac_block_count n.val + 1)
      (btstack_crypto_aes128_cmac_message b e key n message hash callback
        callback_arg)).memory hash 16
      = fixed_bytes 16 (aes_cmac (mem_read_bytes e.memory key 16)
          (fun pos => mem_read e.memory (message + pos)) n.val) := by
  have h1 := cmac_message_result b e ha hq key n message hash callback callback_arg
  have h2 := cmac_generator_result b e ha hq key n get_byte hash callback callback_arg
  have hc : aes_cmac (mem_read_bytes e.memory key 16)
        (cmac_get_byte e.memory (.get_byte_callback get_byte)) n.val
      = aes_cmac (mem_read_bytes e.memory key 16)
        (fun pos => mem_read e.memory (message + pos)) n.val := by
    apply aes_cmac_congr
    intro pos hpos
    have hlt : pos < 65536 := by
      have := n.isLt
      omega
    rw [cmac_get_byte_generator e.memory get_byte pos hlt]
    exact hget ⟨pos, hlt⟩ hpos
  refine ⟨h1.1, h2.1, ?_, ?_⟩
  · rw [h1.2, h2.2, hc]
  · rw [h1.2, mem_read_write_fixed]

/-- C2 at the first 20 bytes of the example message, with an accessor that returns
the bytes of that message. -/
theorem cmac_message_generator_same_hash_witness :
    (btstack_crypto_init nist_memory).active = none ∧
    (btstack_crypto_init nist_memory).queue = [] ∧
    (∀ pos : uint16_t, pos.val < (20 : uint16_t).val →
      ((fun p : uint16_t => (Fin.ofNat (nist_memory (16 + p.val)) : uint8_t)) pos).val
        = mem_read (btstack_crypto_init nist_memory).memory (16 + pos.val)) ∧
    mem_read_bytes (crypto_process_n example_backend (cmac_block_count (20 : uint16_t).val + 1)
      (btstack_crypto_aes128_cmac_message example_backend
        (btstack_crypto_init nist_memory) 0 20 16 100 7 9)).memory 100 16
      = mem_read_bytes (crypto_process_n example_backend
          (cmac_block_count (20 : uint16_t).val + 1)
          (btstack_crypto_aes128_cmac_generator example_backend
            (btstack_crypto_init nist_memory) 0 20
            (fun p : uint16_t => (Fin.ofNat (nist_memory (16 + p.val)) : uint8_t))
            100 7 9)).memory 100 16 :=
  ⟨rfl, rfl, fun _ _ => rfl,
    (cmac_message_generator_same_hash example_backend (btstack_crypto_init nist_memory)
      rfl rfl 0 20 16 (fun p : uint16_t => (Fin.ofNat (nist_memory (16 + p.val)) : uint8_t))
      100 7 9 (fun _ _ => rfl)).2.2.1⟩

/-! ### CMAC: the published examples -/

theorem nist_message_read (m : Memory) (message : Nat)
    (hmsg : mem_read_bytes m message 64 = nist_message) (pos : Nat) (hpos : pos < 64) :
    mem_read m (message + pos) = nist_message.getD pos 0 := by
  have h := congrArg (fun l => l.getD pos 0) hmsg
  simp only [mem_read_bytes, List.getD_eq_getElem?_getD, List.getElem?_map,
    List.getElem?_range hpos] at h
  simpa [List.getD_eq_getElem?_getD] using h

set_option maxRecDepth 1000000 in
theorem aes128_fips197_example :
    aes128_encrypt_block nist_key
      [0x32, 0x43, 0xf6, 0xa8, 0x88, 0x5a, 0x30, 0x8d,
       0x31, 0x31, 0x98, 0xa2, 0xe0, 0x37, 0x07, 0x34]
      = [0x39, 0x25, 0x84, 0x1d, 0x02, 0xdc, 0x09, 0xfb,
         0xdc, 0x11, 0x85, 0x97, 0x19, 0x6a, 0x0b, 0x32] := by
  decide!

set_option maxRecDepth 1000000 in
theorem nist_cmac_values :
    fixed_bytes 16 (aes_cmac nist_key (fun pos => nist_message.getD pos 0) 0)
      = nist_cmac_0 ∧
    fixed_bytes 16 (aes_cmac nist_key (fun pos => nist_message.getD pos 0) 16)
      = nist_cmac_16 ∧
    fixed_bytes 16 (aes_cmac nist_key (fun pos => nist_message.getD pos 0) 20)
      = nist_cmac_20 ∧
    fixed_bytes 16 (aes_cmac nist_key (fun pos => nist_message.getD pos 0) 64)
      = nist_cmac_64 := by
  decide!

theorem cmac_message_published (b : crypto_backend) (m : Memory)
    (key message hash callback callback_arg : pointer)
    (hkey : mem_read_bytes m key 16 = nist_key)
    (hmsg : mem_read_bytes m message 64 = nist_message)
    (len : uint16_t) (hlen : len.val ≤ 64) :
    (crypto_process_n b (cmac_block_count len.val + 1)
      (btstack_crypto_aes128_cmac_message b (btstack_crypto_init m) key len message hash
        callback callback_arg)).completed
      = [.cmac (cmac_message_request key len message hash callback callback_arg)] ∧
    mem_read_bytes (crypto_process_n b (cmac_block_count len.val + 1)
      (btstack_crypto_aes128_cmac_message b (btstack_crypto_init m) key len message hash
        callback callback_arg)).memory hash 16
      = fixed_bytes 16 (aes_cmac nist_key (fun pos => nist_message.getD pos 0) len.val) := by
  have h := cmac_message_result b (btstack_crypto_init m) rfl rfl key len message hash
    callback callback_arg
  refine ⟨h.1, ?_⟩
  rw [h.2, mem_read_write_fixed]
  have hm : (btstack_crypto_init m).memory = m := rfl
  rw [hm, hkey]
  congr 1
  apply aes_cmac_congr
  intro pos hpos
  exact nist_message_read m message hmsg pos (by omega)

/-- C1: with the key `2b7e1516 28aed2a6 abf71588 09cf4f3c` and the published example
message anywhere in caller memory, the CMAC-over-message request for its first 0, 16, 20
and 64 bytes completes (after 2, 2, 3 and 5 `process()` steps) and the 16-byte hash it
has written is the published CMAC value for that message. -/
theorem cmac_published_test_vectors (b : crypto_backend) (m : Memory)
    (key message hash callback callback_arg : pointer)
    (hkey : mem_read_bytes m key 16 = nist_key)
    (hmsg : mem_read_bytes m message 64 = nist_message) :
    ((crypto_process_n b 2
        (btstack_crypto_aes128_cmac_message b (btstack_crypto_init m) key 0 message hash
          callback callback_arg)).completed
        = [.cmac (cmac_message_request key 0 message hash callback callback_arg)] ∧
      mem_read_bytes (crypto_process_n b 2
        (btstack_crypto_aes128_cmac_message b (btstack_crypto_init m) key 0 message hash
          callback callback_arg)).memory hash 16 = nist_cmac_0) ∧
    ((crypto_process_n b 2
        (btstack_crypto_aes128_cmac_message b (btstack_crypto_init m) key 16 message hash
          callback callback_arg)).completed
        = [.cmac (cmac_message_request key 16 message hash callback callback_arg)] ∧
      mem_read_bytes (crypto_process_n b 2
        (btstack_crypto_aes128_cmac_message b (btstack_crypto_init m) key 16 message hash
          callback callback_arg)).memory hash 16 = nist_cmac_16) ∧
    ((crypto_process_n b 3
        (btstack_crypto_aes128_cmac_message b (btstack_crypto_init m) key 20 message hash
          callback callback_arg)).completed
        = [.cmac (cmac_message_request key 20 message hash callback callback_arg)] ∧
      mem_read_bytes (crypto_process_n b 3
        (btstack_crypto_aes128_cmac_message b (btstack_crypto_init m) key 20 message hash
          callback callback_arg)).memory hash 16 = nist_cmac_20) ∧
    ((crypto_process_n b 5
        (btstack_crypto_aes128_cmac_message b (btstack_crypto_init m) key 64 message hash
          callback callback_arg)).completed
        = [.cmac (cmac_message_request key 64 message hash callback callback_arg)] ∧
      mem_read_bytes (crypto_process_n b 5
        (btstack_crypto_aes128_cmac_message b (btstack_crypto_init m) key 64 message hash
          callback callback_arg)).memory hash 16 = nist_cmac_64) := by
  have h0 := cmac_message_published b m key message hash callback callback_arg hkey hmsg
    0 (by decide)
  have h16 := cmac_message_published b m key message hash callback callback_arg hkey hmsg
    16 (by decide)
  have h20 := cmac_message_published b m key message hash callback callback_arg hkey hmsg
    20 (by decide)
  have h64 := cmac_message_published b m key message hash callback callback_arg hkey hmsg
    64 (by decide)
  have hv := nist_cmac_values
  exact ⟨⟨h0.1, h0.2.trans hv.1⟩, ⟨h16.1, h16.2.trans hv.2.1⟩,
    ⟨h20.1, h20.2.trans hv.2.2.1⟩, ⟨h64.1, h64.2.trans hv.2.2.2⟩⟩

/-- C1 with the example key at address 0, the message at address 16 and the hash
written to address 100. -/
theorem cmac_published_test_vectors_witness :
    mem_read_bytes nist_memory 0 16 = nist_key ∧
    mem_read_bytes nist_memory 16 64 = nist_message ∧
    mem_read_bytes (crypto_process_n example_backend 2
      (btstack_crypto_aes128_cmac_message example_backend
        (btstack_crypto_init nist_memory) 0 0 16 100 7 9)).memory 100 16 = nist_cmac_0 ∧
    mem_read_bytes (crypto_process_n example_backend 2
      (btstack_crypto_aes128_cmac_message example_backend
        (btstack_crypto_init nist_memory) 0 16 16 100 7 9)).memory 100 16 = nist_cmac_16 ∧
    mem_read_bytes (crypto_process_n example_backend 3
      (btstack_crypto_aes128_cmac_message example_backend
        (btstack_crypto_init nist_memory) 0 20 16 100 7 9)).memory 100 16 = nist_cmac_20 ∧
    mem_read_bytes (crypto_process_n example_backend 5
      (btstack_crypto_aes128_cmac_message example_backend
        (btstack_crypto_init nist_memory) 0 64 16 100 7 9)).memory 100 16 = nist_cmac_64 :=
  ⟨by decide, by decide,
    (cmac_published_test_vectors example_backend nist_memory 0 16 100 7 9
      (by decide) (by decide)).1.2,
    (cmac_published_test_vectors example_backend nist_memory 0 16 100 7 9
      (by decide) (by decide)).2.1.2,
    (cmac_published_test_vectors example_backend nist_memory 0 16 100 7 9
      (by decide) (by decide)).2.2.1.2,
    (cmac_published_test_vectors example_backend nist_memory 0 16 100 7 9
      (by decide) (by decide)).2.2.2.2⟩

/-! ### The run of a single Random request -/

theorem random_bytes_append (b : crypto_backend) (start n1 n2 : Nat) :
    random_bytes b start (n1 + n2)
      = random_bytes b start n1 ++ random_bytes b (start + n1) n2 := by
  simp [random_bytes, List.range_add, List.map_append, List.map_map, Nat.add_assoc,
    Function.comp_def]

theorem random_bytes_getD (b : crypto_backend) (start n i : Nat) (hi : i < n) :
    (random_bytes b start n).getD i 0 = b.random_byte (start + i) % 256 := by
  simp only [random_bytes]
  rw [List.getD_eq_getElem?_getD, List.getElem?_map, List.getElem?_range hi]
  rfl

theorem mem_write_bytes_append_length (b : crypto_backend) (e : crypto_engine)
    (r : btstack_crypto_random_t) (j : Nat) :
    mem_write_bytes e.memory r.buffer
        (random_bytes b e.random_cursor (j * b.chunk_limit + b.chunk_limit))
      = mem_write_bytes
          (mem_write_bytes e.memory r.buffer
            (random_bytes b e.random_cursor (j * b.chunk_limit)))
          (r.buffer + j * b.chunk_limit)
          (random_bytes b (e.random_cursor + j * b.chunk_limit) b.chunk_limit) := by
  rw [random_bytes_append, mem_write_bytes_append, random_bytes_length]

theorem submit_random_zero (b : crypto_backend) (e : crypto_engine)
    (r : btstack_crypto_random_t) (ha : e.active = none) (hq : e.queue = [])
    (hs : r.size.val = 0) :
    crypto_submit b e (.random r)
      = { e with queue := [], active := none, completed := e.completed ++ [.random r] } := by
  simp [crypto_submit, ha, hq, crypto_promote, crypto_begin, hs, crypto_complete]

theorem submit_random_pos (b : crypto_backend) (e : crypto_engine)
    (r : btstack_crypto_random_t) (ha : e.active = none) (hq : e.queue = [])
    (hs : r.size.val ≠ 0) :
    crypto_submit b e (.random r) = random_wait b e r 0 := by
  simp [crypto_submit, ha, hq, crypto_promote, crypto_begin, hs, random_dispatch,
    random_wait, random_bytes, mem_write_bytes]

theorem process_random_more (b : crypto_backend) (e : crypto_engine)
    (r : btstack_crypto_random_t) (j : Nat)
    (h : j * b.chunk_limit + b.chunk_limit < r.size.val) :
    crypto_process b (random_wait b e r j) = random_wait b e r (j + 1) := by
  have hmin : min (r.size.val - j * b.chunk_limit) b.chunk_limit = b.chunk_limit := by
    omega
  have hne : ¬ (j * b.chunk_limit + b.chunk_limit = r.size.val) := by omega
  have hmul : (j + 1) * b.chunk_limit = j * b.chunk_limit + b.chunk_limit :=
    Nat.succ_mul j b.chunk_limit
  have hrem : r.size.val - (j * b.chunk_limit + b.chunk_limit)
      = r.size.val - (j + 1) * b.chunk_limit := by rw [hmul]
  simp only [crypto_process, random_wait, crypto_step, random_bytes_length, hmin, hne,
    if_false, random_dispatch, hrem]
  rw [← mem_write_bytes_append_length b e r j, hmul]
  simp only [crypto_engine.mk.injEq, true_and, and_true]
  exact ⟨by rw [Nat.add_assoc], by omega, by omega⟩


theorem process_random_last (b : crypto_backend) (e : crypto_engine)
    (r : btstack_crypto_random_t) (j : Nat)
    (h1 : j * b.chunk_limit < r.size.val)
    (h2 : r.size.val ≤ j * b.chunk_limit + b.chunk_limit) :
    (crypto_process b (random_wait b e r j)).memory
      = mem_write_bytes e.memory r.buffer (random_bytes b e.random_cursor r.size.val) ∧
    (crypto_process b (random_wait b e r j)).completed = e.completed ++ [.random r] ∧
    (crypto_process b (random_wait b e r j)).random_calls = e.random_calls + j + 1 ∧
    (crypto_process b (random_wait b e r j)).active = none ∧
    (crypto_process b (random_wait b e r j)).queue = [] := by
  have hmin : min (r.size.val - j * b.chunk_limit) b.chunk_limit
      = r.size.val - j * b.chunk_limit := by omega
  have heq : j * b.chunk_limit + (r.size.val - j * b.chunk_limit) = r.size.val := by omega
  have hmem : mem_write_bytes e.memory r.buffer (random_bytes b e.random_cursor r.size.val)
      = mem_write_bytes
          (mem_write_bytes e.memory r.buffer
            (random_bytes b e.random_cursor (j * b.chunk_limit)))
          (r.buffer + j * b.chunk_limit)
          (random_bytes b (e.random_cursor + j * b.chunk_limit)
            (r.size.val - j * b.chunk_limit)) := by
    conv => lhs; rw [← heq]
    rw [random_bytes_append, mem_write_bytes_append, random_bytes_length]
  simp only [crypto_process, random_wait, crypto_step, random_bytes_length, hmin, heq,
    if_true, crypto_promote, crypto_complete]
  simp [hmem]

theorem random_wait_completed (b : crypto_backend) (e : crypto_engine)
    (r : btstack_crypto_random_t) (j : Nat) :
    (random_wait b e r j).completed = e.completed := rfl

theorem random_run_from (b : crypto_backend) (e : crypto_engine)
    (r : btstack_crypto_random_t) (x : Nat) :
    ∀ j, j * b.chunk_limit < r.size.val → r.size.val - j * b.chunk_limit = x →
      ((crypto_process_n b ((x + b.chunk_limit - 1) / b.chunk_limit)
          (random_wait b e r j)).memory
        = mem_write_bytes e.memory r.buffer
            (random_bytes b e.random_cursor r.size.val) ∧
       (crypto_process_n b ((x + b.chunk_limit - 1) / b.chunk_limit)
          (random_wait b e r j)).completed = e.completed ++ [.random r] ∧
       (crypto_process_n b ((x + b.chunk_limit - 1) / b.chunk_limit)
          (random_wait b e r j)).random_calls
        = e.random_calls + j + (x + b.chunk_limit - 1) / b.chunk_limit) ∧
      ∀ n, n < (x + b.chunk_limit - 1) / b.chunk_limit →
        (crypto_process_n b n (random_wait b e r j)).completed = e.completed := by
  have hc := b.chunk_limit_pos
  induction x using Nat.strong_induction_on with
  | _ x ih =>
    intro j hj hx
    by_cases hlast : x ≤ b.chunk_limit
    · have hk : (x + b.chunk_limit - 1) / b.chunk_limit = 1 :=
        ceil_div_last b.chunk_limit x (by omega) hlast
      have hl := process_random_last b e r j hj (by omega)
      rw [hk]
      refine ⟨?_, ?_⟩
      · simp only [crypto_process_n]
        exact ⟨hl.1, hl.2.1, hl.2.2.1⟩
      · intro n hn
        have hn0 : n = 0 := by omega
        subst hn0
        rfl
    · have hk : (x - b.chunk_limit + b.chunk_limit - 1) / b.chunk_limit + 1
          = (x + b.chunk_limit - 1) / b.chunk_limit :=
        ceil_div_step b.chunk_limit x hc (by omega)
      have hm := process_random_more b e r j (by omega)
      have hmul : (j + 1) * b.chunk_limit = j * b.chunk_limit + b.chunk_limit :=
        Nat.succ_mul j b.chunk_limit
      have hi := ih (x - b.chunk_limit) (by omega) (j + 1) (by omega) (by omega)
      rw [← hk]
      refine ⟨?_, ?_⟩
      · rw [Nat.add_comm _ 1, process_n_add b 1]
        simp only [crypto_process_n]
        rw [hm]
        refine ⟨hi.1.1, hi.1.2.1, ?_⟩
        rw [hi.1.2.2]
        omega
      · intro n hn
        cases n with
        | zero => rfl
        | succ n =>
          rw [Nat.add_comm n 1, process_n_add b 1]
          simp only [crypto_process_n]
          rw [hm]
          exact hi.2 n (by omega)

theorem random_run (b : crypto_backend) (e : crypto_engine)
    (r : btstack_crypto_random_t) (ha : e.active = none) (hq : e.queue = []) :
    ((crypto_process_n b ((r.size.val + b.chunk_limit - 1) / b.chunk_limit)
        (crypto_submit b e (.random r))).memory
      = mem_write_bytes e.memory r.buffer
          (random_bytes b e.random_cursor r.size.val) ∧
     (crypto_process_n b ((r.size.val + b.chunk_limit - 1) / b.chunk_limit)
        (crypto_submit b e (.random r))).completed = e.completed ++ [.random r] ∧
     (crypto_process_n b ((r.size.val + b.chunk_limit - 1) / b.chunk_limit)
        (crypto_submit b e (.random r))).random_calls
      = e.random_calls + (r.size.val + b.chunk_limit - 1) / b.chunk_limit) ∧
    ∀ n, n < (r.size.val + b.chunk_limit - 1) / b.chunk_limit →
      (crypto_process_n b n (crypto_submit b e (.random r))).completed = e.completed := by
  have hc := b.chunk_limit_pos
  by_cases hs : r.size.val = 0
  · have hk : (r.size.val + b.chunk_limit - 1) / b.chunk_limit = 0 := by
      rw [hs]
      apply Nat.div_eq_of_lt
      omega
    rw [hk, submit_random_zero b e r ha hq hs]
    refine ⟨⟨?_, rfl, rfl⟩, ?_⟩
    · simp [crypto_process_n, hs, random_bytes, mem_write_bytes]
    · intro n hn
      omega
  · rw [submit_random_pos b e r ha hq hs]
    have h := random_run_from b e r r.size.val 0 (by omega) (by omega)
    refine ⟨⟨h.1.1, h.1.2.1, ?_⟩, h.2⟩
    rw [h.1.2.2]
    omega

/-- C5: a random-generation request of length `size`, submitted to an idle engine whose
random backend delivers at most `c = chunk_limit > 0` bytes per call, completes after
exactly `ceil(size / c)` `process()` steps and not before, with exactly `ceil(size / c)`
backend calls made; the output buffer then holds the `size` bytes the source delivered
at offsets `0..size-1` and no other memory has changed.  A request with size 0
completes at submission with zero backend calls. -/
theorem random_chunk_accumulation (b : crypto_backend) (e : crypto_engine)
    (ha : e.active = none) (hq : e.queue = [])
    (buffer : pointer) (size : uint16_t) (callback callback_arg : pointer) :
    (crypto_process_n b ((size.val + b.chunk_limit - 1) / b.chunk_limit)
      (btstack_crypto_random_generate b e buffer size callback callback_arg)).completed
      = e.completed ++ [.random (random_request buffer size callback callback_arg)] ∧
    (∀ n, n < (size.val + b.chunk_limit - 1) / b.chunk_limit →
      (crypto_process_n b n
        (btstack_crypto_random_generate b e buffer size callback callback_arg)).completed
        = e.completed) ∧
    (crypto_process_n b ((size.val + b.chunk_limit - 1) / b.chunk_limit)
      (btstack_crypto_random_generate b e buffer size callback callback_arg)).random_calls
      = e.random_calls + (size.val + b.chunk_limit - 1) / b.chunk_limit ∧
    (∀ x : Nat,
      (crypto_process_n b ((size.val + b.chunk_limit - 1) / b.chunk_limit)
        (btstack_crypto_random_generate b e buffer size callback callback_arg)).memory x
        = if buffer ≤ x ∧ x < buffer + size.val
          then b.random_byte (e.random_cursor + (x - buffer)) % 256
          else e.memory x) ∧
    (size.val = 0 →
      (btstack_crypto_random_generate b e buffer size callback callback_arg).completed
        = e.completed ++ [.random (random_request buffer size callback callback_arg)] ∧
      (btstack_crypto_random_generate b e buffer size callback callback_arg).random_calls
        = e.random_calls) := by
  have h := random_run b e (random_request buffer size callback callback_arg) ha hq
  simp only [random_request] at h
  simp only [btstack_crypto_random_generate, random_request]
  refine ⟨h.1.2.1, h.2, h.1.2.2, ?_, ?_⟩
  · intro x
    rw [h.1.1, mem_write_bytes_apply, random_bytes_length]
    by_cases hx : buffer ≤ x ∧ x < buffer + size.val
    · have hx1 : @LE.le Nat _ buffer x := hx.1
      have hx2 : @LT.lt Nat _ x (@HAdd.hAdd Nat Nat Nat _ buffer size.val) := hx.2
      rw [if_pos hx, if_pos hx, random_bytes_getD b _ _ _ (by omega)]
      omega
    · rw [if_neg hx, if_neg hx]
  · intro hs
    rw [submit_random_zero b e _ ha hq hs]
    exact ⟨rfl, rfl⟩

/-- C5 for 20 bytes from a backend that delivers at most 8 bytes per call: three
backend calls. -/
theorem random_chunk_accumulation_witness :
    (btstack_crypto_init nist_memory).active = none ∧
    (btstack_crypto_init nist_memory).queue = [] ∧
    (crypto_process_n example_backend 3
      (btstack_crypto_random_generate example_backend (btstack_crypto_init nist_memory)
        200 20 7 9)).completed = [.random (random_request 200 20 7 9)] ∧
    (∀ n, n < 3 →
      (crypto_process_n example_backend n
        (btstack_crypto_random_generate example_backend (btstack_crypto_init nist_memory)
          200 20 7 9)).completed = []) ∧
    (crypto_process_n example_backend 3
      (btstack_crypto_random_generate example_backend (btstack_crypto_init nist_memory)
        200 20 7 9)).random_calls = 3 :=
  ⟨rfl, rfl,
    (random_chunk_accumulation example_backend (btstack_crypto_init nist_memory) rfl rfl
      200 20 7 9).1,
    (random_chunk_accumulation example_backend (btstack_crypto_init nist_memory) rfl rfl
      200 20 7 9).2.1,
    (random_chunk_accumulation example_backend (btstack_crypto_init nist_memory) rfl rfl
      200 20 7 9).2.2.1⟩

end BtstackCrypto
